import Mathlib

/-!
Verification development for the labeled-array storage engine
(`MetaArray` in `src/survos2/frontend/components/Table.py`).

The source manipulates numpy arrays plus a list of per-axis metadata
dictionaries, and serializes them in two formats: a flat evaluable-header
binary layout (`writeMa` / `_readData1` / `_readData2`) and an HDF5
container (`writeHDF5` / `_readHDF5` / `writeHDF5Meta` / `readHDF5Meta`).

Modelling conventions:
* numeric scalars and array elements are rationals (`ℚ`); dtypes are the
  dtype-name strings the source passes around, with an abstract positive
  byte size per element;
* raw byte blocks produced by `ndarray.tostring()` and consumed by
  `np.fromstring(..., dtype)` are modelled as `(dtype, element list)`
  pairs: decoding a block with the dtype it was encoded with yields the
  original elements, and decoding with a different dtype is a byte-level
  reinterpretation this model reports as an error (a round trip never
  performs one);
* `pickle.dumps`/`pickle.loads` is likewise modelled as the identity on
  the element list, via a payload constructor of its own;
* Python axis-description dictionaries are modelled as a structure of
  optional fields, one per key the source ever reads or writes
  (`name`, `units`, `values`, `cols`, `values_len`, `values_type`);
  Python `dict` equality is key-based, which coincides with structural
  equality of this representation;
* where object identity and in-place mutation matter (`checkInfo`
  normalizing the caller's dictionaries, `transpose` reusing them,
  `infoCopy` deep-copying them) a heap of axis-description cells with
  numeric addresses is used and the operations are re-expressed as
  state-passing functions on that heap.
-/

set_option maxHeartbeats 1000000

namespace MetaArraySpec

/-- Axis or column names: the source allows `str` and `tuple` name types
(`MetaArray.nameTypes`); tuple entries are modelled as strings. -/
inductive AxName where
  | str (s : String)
  | tup (ts : List String)
deriving DecidableEq, Repr

/-- A one-dimensional numpy array together with its dtype name, as stored
for per-axis `values`. -/
structure NDArray1 where
  dtype : String
  vals : List ℚ
deriving DecidableEq, Repr

/-- The `values` entry of an axis dictionary: either a plain Python list
(as a caller may supply it) or an ndarray (as `checkInfo` normalizes it). -/
inductive ValSeq where
  | pylist (l : List ℚ)
  | arr (a : NDArray1)
deriving DecidableEq, Repr

/-- The `values_len` key of a serialized axis description: a byte length,
or the string `"dynamic"` marking the dynamic axis of a v2 flat file. -/
inductive VLen where
  | dyn
  | len (n : Nat)
deriving DecidableEq, Repr

/-- One column description (`{'name': ..., 'units': ..., 'title': ...}`),
as built by the module-level `axis()` helper. -/
structure Col where
  name : Option AxName := none
  units : Option String := none
  title : Option String := none
deriving DecidableEq, Repr

/-- One axis-description dictionary. Absent optional fields model absent
dictionary keys. -/
structure AxisSpec where
  name : Option AxName := none
  units : Option String := none
  values : Option ValSeq := none
  cols : Option (List Col) := none
  valuesLen : Option VLen := none
  valuesType : Option String := none
deriving DecidableEq, Repr

/-- An n-dimensional numpy array: shape, dtype name, and row-major flat
data. -/
structure NDArray where
  shape : List Nat
  dtype : String
  data : List ℚ
deriving DecidableEq, Repr

/-- An in-memory `MetaArray` instance: the data buffer plus the list of
axis descriptions (`self._data`, `self._info`). -/
structure Instance where
  data : NDArray
  info : List AxisSpec
deriving DecidableEq, Repr

def Instance.ndim (x : Instance) : Nat := x.data.shape.length

/-- Error taxonomy: each constructor corresponds to one `raise` site (or
one class of Python runtime error) in the source. -/
inductive Err where
  | malformedHeader
  | unsupportedVersion
  | shapeMismatch
  | unknownAxis
  | unknownColumn
  | orderingError
  | multipleDynamicAxes
  | unknownAppendKey
  | versionConflict
  | metadataDecode
  | typeError
  | keyError
  | indexError
  | wrongFrameSize
  | unsupportedRank
  | emptyConcat
  | syntaxError
deriving DecidableEq, Repr

/-- Abstract per-element byte size of a dtype; only positivity and
injectivity of block encoding matter to the model. -/
def dtypeSize (dt : String) : Nat :=
  if dt = "float64" then 8
  else if dt = "int64" then 8
  else if dt = "float32" then 4
  else if dt = "int32" then 4
  else 1

def NDArray1.byteLen (a : NDArray1) : Nat := dtypeSize a.dtype * a.vals.length

/-- Dtype a fresh `np.array(list)` of rationals gets in this model. -/
def defaultDtype : String := "float64"

/-- Normalization `checkInfo` applies to one axis dictionary: a
list-valued `values` entry is replaced by `np.array(...)` of it
(`info[i]["values"] = np.array(info[i]["values"])`). -/
def normalizeAx (ax : AxisSpec) : AxisSpec :=
  match ax.values with
  | some (ValSeq.pylist l) => { ax with values := some (ValSeq.arr ⟨defaultDtype, l⟩) }
  | _ => ax

/-- Validation `checkInfo` performs on the axis dictionary of one data
axis of extent `extent` (Table.py lines 189-206): normalize a list-valued
`values`, then require the values length and the `cols` length to match
the axis extent. -/
def validateAxis (extent : Nat) (ax : AxisSpec) : Except Err AxisSpec :=
  let ax' := normalizeAx ax
  match ax'.values with
  | some (ValSeq.arr a) =>
      if a.vals.length ≠ extent then Except.error Err.shapeMismatch
      else match ax'.cols with
        | some cs => if cs.length ≠ extent then Except.error Err.shapeMismatch else Except.ok ax'
        | none => Except.ok ax'
  | _ =>
      match ax'.cols with
      | some cs => if cs.length ≠ extent then Except.error Err.shapeMismatch else Except.ok ax'
      | none => Except.ok ax'

/-- One step of the `checkInfo` loop: the entry at position `i` is
validated against the axis extent when `i < ndim`; the final
(whole-array) entry is not. -/
def validateEntry (shape : List Nat) (i : Nat) (ax : AxisSpec) : Except Err AxisSpec :=
  if h : i < shape.length then validateAxis (shape.get ⟨i, h⟩) ax else Except.ok ax

/-- Per-index validation loop of `checkInfo`. -/
def validateInfo (shape : List Nat) : Nat → List AxisSpec → Except Err (List AxisSpec)
  | _, [] => Except.ok []
  | i, ax :: rest => do
      let ax2 ← validateEntry shape i ax
      let rest2 ← validateInfo shape (i + 1) rest
      Except.ok (ax2 :: rest2)

/-- `MetaArray.checkInfo` (Table.py lines 166-207) on the pure data model:
`info = None` becomes `ndim+1` empty descriptions; otherwise fewer than
`ndim+1` entries are padded with empty dictionaries, more than `ndim+1`
entries raise, and each data-axis entry is validated. -/
def checkInfoPure (data : NDArray) (info : Option (List AxisSpec)) :
    Except Err (List AxisSpec) :=
  let ndim := data.shape.length
  match info with
  | none => Except.ok (List.replicate (ndim + 1) {})
  | some info =>
      if info.length > ndim + 1 then Except.error Err.malformedHeader
      else validateInfo data.shape 0 (info ++ List.replicate (ndim + 1 - info.length) {})

/-- The `MetaArray(data, info)` constructor on the pure model: store the
buffer and run `checkInfo`. -/
def mkMetaArray (data : NDArray) (info : Option (List AxisSpec)) : Except Err Instance := do
  let info' ← checkInfoPure data info
  Except.ok ⟨data, info'⟩

/-! Well-formedness: what holds of every successfully constructed
instance (and is assumed by the column machinery: every column
description carries a name, per the `ColumnSpec` contract). -/

def Col.wf (c : Col) : Bool := c.name.isSome

def axValuesWf (extent : Nat) (ax : AxisSpec) : Bool :=
  match ax.values with
  | some (ValSeq.arr a) => a.vals.length = extent
  | some (ValSeq.pylist _) => false
  | none => true

def axColsWf (extent : Nat) (ax : AxisSpec) : Bool :=
  match ax.cols with
  | some cs => cs.length = extent && cs.all Col.wf
  | none => true

/-- Well-formedness of the axis description of a data axis of extent
`extent`. -/
def AxisSpec.wfAt (extent : Nat) (ax : AxisSpec) : Bool :=
  axValuesWf extent ax && axColsWf extent ax && ax.valuesLen.isNone && ax.valuesType.isNone

/-- Well-formedness of the trailing whole-array description. -/
def AxisSpec.wfLast (ax : AxisSpec) : Bool :=
  (match ax.values with
   | some (ValSeq.pylist _) => false
   | _ => true) &&
  (match ax.cols with
   | some cs => cs.all Col.wf
   | none => true) &&
  ax.valuesLen.isNone && ax.valuesType.isNone

def NDArray.wfB (d : NDArray) : Bool := d.data.length = d.shape.prod

def infoWfB (shape : List Nat) : Nat → List AxisSpec → Bool
  | _, [] => true
  | i, ax :: rest =>
      (if h : i < shape.length then ax.wfAt (shape.get ⟨i, h⟩) else ax.wfLast) &&
      infoWfB shape (i + 1) rest

/-- Well-formed instance: buffer size matches the shape, `info` has
length `ndim + 1`, each data-axis description is valid for its extent,
and the trailing description is normalized. -/
def Instance.wfB (x : Instance) : Bool :=
  x.data.wfB && (x.info.length = x.data.shape.length + 1) && infoWfB x.data.shape 0 x.info

/-! ## Index resolver (`_interpretIndexes` / `_interpretIndex`,
Table.py lines 469-576)

Python index objects are modelled by one inductive covering every shape
the resolver inspects: integers, names (str/tuple), floats, `None`,
slices (whose three slots are again arbitrary index objects), and lists. -/

/-- A Python object appearing in an index expression. -/
inductive PyIdx where
  | none
  | int (i : Int)
  | name (n : AxName)
  | float (q : ℚ)
  | slice (st sp ste : PyIdx)
  | list (xs : List PyIdx)
deriving Repr

/-- A resolved per-axis selector, as handed on to the numpy indexing
machinery. -/
inductive ResIdx where
  | pos (i : Int)
  | slice (st sp ste : PyIdx)
  | mask (m : List Bool)
  | idxList (xs : List Int)
  | rlist (xs : List ResIdx)
  | raw (v : PyIdx)
deriving Repr

/-- `MetaArray.isNameType`. -/
def isNameTypeIdx : PyIdx → Bool
  | PyIdx.name _ => true
  | _ => false

def isFloatIdx : PyIdx → Bool
  | PyIdx.float _ => true
  | _ => false

def isIntIdx : PyIdx → Bool
  | PyIdx.int _ => true
  | _ => false

/-- Numeric value of an index object, for the value-range comparisons
(`xvals >= ind.stop` etc. compare against an int or float bound). -/
def numVal : PyIdx → Option ℚ
  | PyIdx.int i => some (i : ℚ)
  | PyIdx.float q => some q
  | _ => Option.none

/-- `MetaArray._getAxis`: first axis whose description carries a matching
`name` (the source scans the whole `info` list, trailing entry
included). -/
def getAxis (x : Instance) (n : AxName) : Except Err Nat :=
  match x.info.findIdx? (fun ax => ax.name == some n) with
  | some i => Except.ok i
  | Option.none => Except.error Err.unknownAxis

/-- `MetaArray._getIndex`: first column of `axis` whose description
carries a matching `name`. -/
def getColIndex (x : Instance) (axis : Nat) (n : AxName) : Except Err Nat :=
  if axis < x.info.length then
    match (x.info.getD axis {}).cols with
    | some cs =>
        match cs.findIdx? (fun c => c.name == some n) with
        | some i => Except.ok i
        | Option.none => Except.error Err.unknownColumn
    | Option.none => Except.error Err.unknownColumn
  else Except.error Err.indexError

/-- `MetaArray._interpretAxis` applied to a slice's `start` slot: a name
is resolved through `_getAxis`; an integer passes through; anything else
is a type error when later used as an axis number. Negative axis numbers
(Python's index-from-the-end) are outside this model. -/
def interpretAxisP (x : Instance) : PyIdx → Except Err Nat
  | PyIdx.name n => getAxis x n
  | PyIdx.int i => if i < 0 then Except.error Err.typeError else Except.ok i.toNat
  | _ => Except.error Err.typeError

/-- Value-range mask (`self.xvals(axis) >= stop`, `< step`): requires the
axis values to be an ndarray of numbers and the bounds to be numeric. -/
def rangeMask (a : NDArray1) (sp ste : PyIdx) : Except Err (List Bool)
  := match sp, ste with
  | PyIdx.none, ste =>
      match numVal ste with
      | some hi => Except.ok (a.vals.map (fun v => decide (v < hi)))
      | Option.none => Except.error Err.typeError
  | sp, PyIdx.none =>
      match numVal sp with
      | some lo => Except.ok (a.vals.map (fun v => decide (lo ≤ v)))
      | Option.none => Except.error Err.typeError
  | sp, ste =>
      match numVal sp, numVal ste with
      | some lo, some hi => Except.ok (a.vals.map (fun v => decide (lo ≤ v ∧ v < hi)))
      | _, _ => Except.error Err.typeError

/-- Element-wise resolution of a list selector following a named axis
(`x[Axis:[list]]`), scanning left to right: integer entries pass through,
names resolve to column indices (and their lookup errors fire in list
order), and on the first entry of any other type the whole original list
passes through raw. -/
def namedListLoop (x : Instance) (axis : Nat) (orig : List PyIdx) :
    List PyIdx → List Int → Except Err ResIdx
  | [], acc => Except.ok (ResIdx.idxList acc.reverse)
  | PyIdx.int i :: rest, acc => namedListLoop x axis orig rest (i :: acc)
  | PyIdx.name n :: rest, acc => do
      let c ← getColIndex x axis n
      namedListLoop x axis orig rest (Int.ofNat c :: acc)
  | _ :: _, _ => Except.ok (ResIdx.raw (PyIdx.list orig))

/-- Body of the named-slice branch of `_interpretIndex` (a slice whose
`start` or `stop` is a name, Table.py lines 510-564): resolve the axis,
then dispatch on what follows the name — column name, value range,
integer position/range, list, or raw passthrough. Every success of this
branch is reported named (`return (axis, index, True)` in the source). -/
def namedSliceResolve (x : Instance) (st sp ste : PyIdx) : Except Err (Nat × ResIdx) := do
  let axis ← interpretAxisP x st
  if isNameTypeIdx sp then
    -- x[Axis:Column]
    match sp with
    | PyIdx.name cn => do
        let c ← getColIndex x axis cn
        Except.ok (axis, ResIdx.pos (Int.ofNat c))
    | _ => Except.error Err.typeError
  else if (isFloatIdx sp || isFloatIdx ste) && (x.info.getD axis {}).values.isSome then
    -- x[Axis:min:max] value-range mask
    match (x.info.getD axis {}).values with
    | some (ValSeq.arr a) => do
        let m ← rangeMask a sp ste
        Except.ok (axis, ResIdx.mask m)
    | _ => Except.error Err.typeError
  else if isIntIdx sp || isIntIdx ste then
    -- x[Axis:columnIndex] / x[Axis:start:stop]
    match ste with
    | PyIdx.none =>
        match sp with
        | PyIdx.int i => Except.ok (axis, ResIdx.pos i)
        | _ => Except.error Err.typeError
    | _ => Except.ok (axis, ResIdx.slice sp ste PyIdx.none)
  else
    match sp with
    | PyIdx.list xs => do
        -- x[Axis:[list]]
        let r ← namedListLoop x axis xs xs []
        Except.ok (axis, r)
    | _ =>
        -- other type: forward on to the array
        Except.ok (axis, ResIdx.raw sp)

mutual

/-- `MetaArray._interpretIndex` (Table.py lines 494-576). Returns the
target axis, the resolved selector, and the `isNamed` flag. The branch
structure follows the source exactly; in particular the ordinary-slice
branch does not consult `numOk`. -/
def interpretIndex (x : Instance) : PyIdx → Nat → Bool → Except Err (Nat × ResIdx × Bool)
  | PyIdx.int i, pos, numOk =>
      if !numOk then Except.error Err.orderingError
      else Except.ok (pos, ResIdx.pos i, false)
  | PyIdx.name n, pos, numOk =>
      if !numOk then Except.error Err.orderingError
      else do
        let c ← getColIndex x pos n
        Except.ok (pos, ResIdx.pos (Int.ofNat c), false)
  | PyIdx.slice st sp ste, pos, numOk =>
      if isNameTypeIdx st || isNameTypeIdx sp then do
        let r ← namedSliceResolve x st sp ste
        Except.ok (r.1, r.2, true)
      else
        -- a real slice, passed on to the array (no numOk check)
        Except.ok (pos, ResIdx.slice st sp ste, false)
  | PyIdx.list xs, pos, numOk => do
      let rs ← interpretEach x xs pos numOk
      Except.ok (pos, ResIdx.rlist rs, false)
  | e, pos, numOk =>
      if !numOk then Except.error Err.orderingError
      else Except.ok (pos, ResIdx.raw e, false)

/-- Element-wise resolution of a top-level list selector: each element is
interpreted at the same position with the same `numOk`. -/
def interpretEach (x : Instance) : List PyIdx → Nat → Bool → Except Err (List ResIdx)
  | [], _, _ => Except.ok []
  | e :: rest, pos, numOk => do
      let r ← interpretIndex x e pos numOk
      let rs ← interpretEach x rest pos numOk
      Except.ok (r.2.1 :: rs)

end

/-- Loop body of `_interpretIndexes`: resolve each selector left to
right, writing the result into the per-axis selector list, and clear
`numOk` once a named selector has been seen. -/
def interpLoop (x : Instance) : List PyIdx → Nat → List ResIdx → Bool →
    Except Err (List ResIdx)
  | [], _, nInd, _ => Except.ok nInd
  | e :: rest, pos, nInd, numOk => do
      let r ← interpretIndex x e pos numOk
      if r.1 < nInd.length then
        interpLoop x rest (pos + 1) (nInd.set r.1 r.2.1) (numOk && !r.2.2)
      else Except.error Err.indexError

/-- `MetaArray._interpretIndexes` on an index tuple: unspecified axes
default to `slice(None)`. -/
def interpretIndexes (x : Instance) (inds : List PyIdx) : Except Err (List ResIdx) :=
  interpLoop x inds 0
    (List.replicate x.data.shape.length (ResIdx.slice PyIdx.none PyIdx.none PyIdx.none)) true

/-! Helper lemmas for computing with `Except`-valued code. -/

@[simp] theorem exc_ok_bind {α β : Type} (a : α) (f : α → Except Err β) :
    (Except.ok a >>= f) = f a := rfl

@[simp] theorem exc_error_bind {α β : Type} (e : Err) (f : α → Except Err β) :
    ((Except.error e : Except Err α) >>= f) = (Except.error e : Except Err β) := rfl

theorem listGetD_map {α β : Type} (f : α → β) (l : List α) (i : Nat)
    (h : i < l.length) (d : β) (d0 : α) : (l.map f).getD i d = f (l.getD i d0) := by
  induction l generalizing i with
  | nil => simp at h
  | cons a t ih =>
      cases i with
      | zero => rfl
      | succ j => exact ih j (by simpa using h)

/-- C4. Resolving a named selector for a values-carrying axis followed by
floating-point bounds yields a boolean mask: with both bounds it selects
exactly the positions whose value lies in `[lowerBound, upperBound)`;
with the lower bound omitted, positions with value `< upperBound`; with
the upper bound omitted, positions with value `>= lowerBound`
(Table.py lines 522-534; in `x[Axis:lo:hi]` the slice `stop` slot is the
lower bound and the `step` slot is the upper bound). -/
theorem c4_value_range_mask (x : Instance) (n : AxName) (a : Nat) (av : NDArray1)
    (lo hi : ℚ) (pos : Nat) (numOk : Bool)
    (hax : getAxis x n = Except.ok a)
    (hvals : (x.info.getD a {}).values = some (ValSeq.arr av)) :
    interpretIndex x (PyIdx.slice (PyIdx.name n) (PyIdx.float lo) (PyIdx.float hi)) pos numOk
      = Except.ok (a, ResIdx.mask (av.vals.map fun v => decide (lo ≤ v ∧ v < hi)), true) ∧
    interpretIndex x (PyIdx.slice (PyIdx.name n) PyIdx.none (PyIdx.float hi)) pos numOk
      = Except.ok (a, ResIdx.mask (av.vals.map fun v => decide (v < hi)), true) ∧
    interpretIndex x (PyIdx.slice (PyIdx.name n) (PyIdx.float lo) PyIdx.none) pos numOk
      = Except.ok (a, ResIdx.mask (av.vals.map fun v => decide (lo ≤ v)), true) ∧
    (∀ i, i < av.vals.length →
      (((av.vals.map fun v => decide (lo ≤ v ∧ v < hi)).getD i false = true) ↔
        (lo ≤ av.vals.getD i 0 ∧ av.vals.getD i 0 < hi))) := by
  simp only [List.getD, List.get?_eq_getElem?] at hvals
  refine ⟨?_, ?_, ?_, ?_⟩
  · simp [interpretIndex, namedSliceResolve, interpretAxisP, hax, hvals,
      isNameTypeIdx, isFloatIdx, rangeMask, numVal, List.getD]
  · simp [interpretIndex, namedSliceResolve, interpretAxisP, hax, hvals,
      isNameTypeIdx, isFloatIdx, rangeMask, numVal, List.getD]
  · simp [interpretIndex, namedSliceResolve, interpretAxisP, hax, hvals,
      isNameTypeIdx, isFloatIdx, rangeMask, numVal, List.getD]
  · intro i hi2
    rw [listGetD_map _ _ _ hi2 false 0]
    simp

/-- Concrete instance for the C4 witness: axis `"z"` of extent 5 with
values `[0,1,2,3,4]`. -/
def c4x : Instance :=
  ⟨⟨[5], "float64", [0, 1, 2, 3, 4]⟩,
   [{ name := some (AxName.str "z"),
      values := some (ValSeq.arr ⟨"float64", [0, 1, 2, 3, 4]⟩) }, {}]⟩

/-- The rational 1.5, built in normalized form so the kernel can
evaluate comparisons against it. -/
def q15 : ℚ := ⟨3, 2, by decide, by decide⟩

/-- The rational 3.5. -/
def q35 : ℚ := ⟨7, 2, by decide, by decide⟩

theorem c4_value_range_mask_witness :
    getAxis c4x (AxName.str "z") = Except.ok 0 ∧
    (c4x.info.getD 0 {}).values = some (ValSeq.arr ⟨"float64", [0, 1, 2, 3, 4]⟩) ∧
    interpretIndex c4x
        (PyIdx.slice (PyIdx.name (AxName.str "z")) (PyIdx.float q15) (PyIdx.float q35)) 0 true
      = Except.ok (0,
          ResIdx.mask (([0, 1, 2, 3, 4] : List ℚ).map
            fun v => decide (q15 ≤ v ∧ v < q35)), true) ∧
    (([0, 1, 2, 3, 4] : List ℚ).map fun v => decide (q15 ≤ v ∧ v < q35))
      = [false, false, true, true, false] :=
  ⟨rfl, rfl,
    (c4_value_range_mask c4x (AxName.str "z") 0 ⟨"float64", [0, 1, 2, 3, 4]⟩
      q15 q35 0 true rfl rfl).1,
    by decide⟩

/-! C5 machinery: once a named selector has been consumed, `numOk` is
false forever, and a bare integer then raises; but an ordinary slice does
not. -/

/-- Every success of the named-slice branch is flagged named. -/
theorem interpretIndex_namedSlice_isNamed (x : Instance) (st sp ste : PyIdx)
    (hnamed : (isNameTypeIdx st || isNameTypeIdx sp) = true)
    (pos : Nat) (numOk : Bool) (res : Nat × ResIdx × Bool)
    (h : interpretIndex x (PyIdx.slice st sp ste) pos numOk = Except.ok res) :
    res.2.2 = true := by
  rw [interpretIndex, hnamed] at h
  simp only [Bool.if_true_left] at h
  cases hr : namedSliceResolve x st sp ste with
  | error e => rw [hr] at h; simp at h
  | ok p => rw [hr] at h; simp at h; simp [← h]

/-- With `numOk` cleared, a loop whose remaining selectors contain a bare
integer can never succeed. -/
theorem interpLoop_int_no_ok (x : Instance) :
    ∀ (es : List PyIdx), (∃ k, PyIdx.int k ∈ es) →
    ∀ pos nInd r, interpLoop x es pos nInd false ≠ Except.ok r := by
  intro es
  induction es with
  | nil => rintro ⟨k, hk⟩; simp at hk
  | cons e rest ih =>
      rintro ⟨k, hk⟩ pos nInd r
      rcases List.mem_cons.mp hk with he | hrest
      · subst he
        intro hok
        rw [interpLoop] at hok
        simp [interpretIndex] at hok
      · intro hok
        rw [interpLoop] at hok
        cases hr : interpretIndex x e pos false with
        | error er => rw [hr] at hok; simp at hok
        | ok p =>
            rw [hr] at hok
            simp only [exc_ok_bind] at hok
            by_cases hlt : p.1 < nInd.length
            · rw [if_pos hlt] at hok
              exact ih ⟨k, hrest⟩ _ _ r (by simpa using hok)
            · rw [if_neg hlt] at hok; simp at hok

/-- C5 (amended). A bare integer selector occurring after a named
selector always fails: resolution of the whole expression never yields a
selector tuple, and the failure at the integer itself is the ordering
error — but an ordinary (positional) slice after a named selector does
NOT fail: it is accepted silently as a positional selector (Table.py
line 567 returns it without consulting `numOk`). -/
theorem c5_ordering_error (x : Instance) (pre rest : List PyIdx) (st sp ste : PyIdx)
    (hnamed : (isNameTypeIdx st || isNameTypeIdx sp) = true)
    (hint : ∃ k, PyIdx.int k ∈ rest) :
    (∀ r, interpretIndexes x (pre ++ PyIdx.slice st sp ste :: rest) ≠ Except.ok r) ∧
    (∀ k pos, interpretIndex x (PyIdx.int k) pos false = Except.error Err.orderingError) ∧
    (∀ st2 sp2 ste2 pos numOk, isNameTypeIdx st2 = false → isNameTypeIdx sp2 = false →
      interpretIndex x (PyIdx.slice st2 sp2 ste2) pos numOk
        = Except.ok (pos, ResIdx.slice st2 sp2 ste2, false)) := by
  refine ⟨?_, fun k pos => rfl, fun st2 sp2 ste2 pos numOk h1 h2 => by
    simp [interpretIndex, h1, h2]⟩
  have main : ∀ (pre : List PyIdx) pos nInd numOk r,
      interpLoop x (pre ++ PyIdx.slice st sp ste :: rest) pos nInd numOk ≠ Except.ok r := by
    intro pre
    induction pre with
    | nil =>
        intro pos nInd numOk r hok
        rw [List.nil_append, interpLoop] at hok
        cases hr : interpretIndex x (PyIdx.slice st sp ste) pos numOk with
        | error e => rw [hr] at hok; simp at hok
        | ok p =>
            rw [hr] at hok
            simp only [exc_ok_bind] at hok
            have hp : p.2.2 = true :=
              interpretIndex_namedSlice_isNamed x st sp ste hnamed pos numOk p hr
            by_cases hlt : p.1 < nInd.length
            · rw [if_pos hlt] at hok
              rw [hp] at hok
              exact interpLoop_int_no_ok x rest hint _ _ r (by simpa using hok)
            · rw [if_neg hlt] at hok; simp at hok
    | cons e pre2 ih =>
        intro pos nInd numOk r hok
        rw [List.cons_append, interpLoop] at hok
        cases hr : interpretIndex x e pos numOk with
        | error er => rw [hr] at hok; simp at hok
        | ok p =>
            rw [hr] at hok
            simp only [exc_ok_bind] at hok
            by_cases hlt : p.1 < nInd.length
            · rw [if_pos hlt] at hok
              exact ih _ _ _ r hok
            · rw [if_neg hlt] at hok; simp at hok
  exact fun r => main pre 0 _ true r

/-- Concrete two-axis instance for C5: axes named `"x"` and `"y"`. -/
def c5x : Instance :=
  ⟨⟨[2, 3], "float64", [0, 1, 2, 3, 4, 5]⟩,
   [{ name := some (AxName.str "x") }, { name := some (AxName.str "y") }, {}]⟩

/-- C5 counterexample. The claim also covers ordinary slices, but an
ordinary slice occurring after a named selector is resolved silently: on
`c5x` the expression `x["x":0, 0:2]` (a named selector consuming axis 0,
then an ordinary slice) resolves to a selector tuple instead of failing
with an ordering error. -/
theorem c5_slice_after_named_counterexample :
    interpretIndexes c5x
        [PyIdx.slice (PyIdx.name (AxName.str "x")) (PyIdx.int 0) PyIdx.none,
         PyIdx.slice (PyIdx.int 0) (PyIdx.int 2) PyIdx.none]
      = Except.ok [ResIdx.pos 0, ResIdx.slice (PyIdx.int 0) (PyIdx.int 2) PyIdx.none] := by
  rfl

theorem c5_ordering_error_witness :
    ((isNameTypeIdx (PyIdx.name (AxName.str "x")) || isNameTypeIdx (PyIdx.int 0)) = true) ∧
    (∃ k, PyIdx.int k ∈ [PyIdx.int 1]) ∧
    (∀ r, interpretIndexes c5x
        ([] ++ PyIdx.slice (PyIdx.name (AxName.str "x")) (PyIdx.int 0) PyIdx.none :: [PyIdx.int 1])
      ≠ Except.ok r) :=
  ⟨rfl, ⟨1, by simp⟩,
    (c5_ordering_error c5x [] [PyIdx.int 1] (PyIdx.name (AxName.str "x")) (PyIdx.int 0)
      PyIdx.none rfl ⟨1, by simp⟩).1⟩



/-! C8 machinery: how `checkInfo` treats the length of the supplied
`info` list. -/

theorem validateAxis_empty (e : Nat) : validateAxis e {} = Except.ok ({} : AxisSpec) := rfl

theorem validateEntry_empty (shape : List Nat) (i : Nat) :
    validateEntry shape i {} = Except.ok ({} : AxisSpec) := by
  rw [validateEntry]; split <;> rfl

theorem validateInfo_append (shape : List Nat) (l1 l2 : List AxisSpec) : ∀ i,
    validateInfo shape i (l1 ++ l2) = (do
      let r1 ← validateInfo shape i l1
      let r2 ← validateInfo shape (i + l1.length) l2
      Except.ok (r1 ++ r2)) := by
  induction l1 with
  | nil =>
      intro i
      simp only [List.nil_append, validateInfo, List.length_nil, Nat.add_zero]
      cases validateInfo shape i l2 with
      | error e => rfl
      | ok r => rfl
  | cons a t ih =>
      intro i
      rw [List.cons_append, validateInfo, validateInfo]
      cases hval : validateEntry shape i a with
      | error e => rfl
      | ok a2 =>
          simp only [exc_ok_bind]
          rw [ih (i + 1)]
          cases validateInfo shape (i + 1) t with
          | error e => rfl
          | ok r1 =>
              simp only [exc_ok_bind, List.length_cons]
              have harith : i + 1 + t.length = i + (t.length + 1) := by omega
              rw [harith]
              cases validateInfo shape (i + (t.length + 1)) l2 with
              | error e => rfl
              | ok r2 => rfl

theorem validateInfo_length (shape : List Nat) : ∀ (l r : List AxisSpec) (i : Nat),
    validateInfo shape i l = Except.ok r → r.length = l.length := by
  intro l
  induction l with
  | nil => intro r i h; rw [validateInfo] at h; cases h; rfl
  | cons a t ih =>
      intro r i h
      rw [validateInfo] at h
      cases hval : validateEntry shape i a with
      | error e => rw [hval] at h; simp at h
      | ok a2 =>
          rw [hval] at h
          simp only [exc_ok_bind] at h
          cases hrest : validateInfo shape (i + 1) t with
          | error e => rw [hrest] at h; simp at h
          | ok r2 =>
              rw [hrest] at h
              simp only [exc_ok_bind] at h
              cases h
              simp [ih r2 (i + 1) hrest]

theorem validateInfo_replicate_empty (shape : List Nat) : ∀ (k i : Nat),
    validateInfo shape i (List.replicate k ({} : AxisSpec))
      = Except.ok (List.replicate k ({} : AxisSpec)) := by
  intro k
  induction k with
  | zero => intro i; rfl
  | succ n ih =>
      intro i
      rw [List.replicate_succ, validateInfo, validateEntry_empty]
      simp only [exc_ok_bind, ih (i + 1)]

/-- C8 counterexample. Constructing from a rank-1 buffer of extent 3 and
a single supplied entry (fewer than `ndim + 1 = 2` entries) does not
always succeed: an entry whose `values` list has the wrong length makes
`checkInfo` raise a shape error, refuting the claim that construction
with fewer than `N+1` entries succeeds for every supplied info
sequence. -/
theorem c8_info_length_counterexample :
    mkMetaArray ⟨[3], "float64", [1, 2, 3]⟩
        (some [{ values := some (ValSeq.pylist [1, 2]) }])
      = Except.error Err.shapeMismatch := rfl

/-- C8 (amended). Provided the supplied entries themselves validate
against the axis extents, construction with fewer than `ndim + 1`
entries succeeds and pads with empty descriptors up to length
`ndim + 1`; construction with more than `ndim + 1` entries fails with
the format error; and every successful construction (from any supplied
`info`, or from none) yields `info` of length exactly `ndim + 1`. -/
theorem c8_info_normalization (data : NDArray) (info infoV : List AxisSpec)
    (hlt : info.length < data.shape.length + 1)
    (hv : validateInfo data.shape 0 info = Except.ok infoV) :
    (mkMetaArray data (some info)
        = Except.ok ⟨data,
            infoV ++ List.replicate (data.shape.length + 1 - info.length) ({} : AxisSpec)⟩ ∧
      (infoV ++ List.replicate (data.shape.length + 1 - info.length)
          ({} : AxisSpec)).length = data.shape.length + 1) ∧
    (∀ (big : List AxisSpec), big.length > data.shape.length + 1 →
      mkMetaArray data (some big) = Except.error Err.malformedHeader) ∧
    (∀ (anyInfo : Option (List AxisSpec)) (x : Instance),
      mkMetaArray data anyInfo = Except.ok x → x.info.length = data.shape.length + 1) := by
  have hlen := validateInfo_length data.shape info infoV 0 hv
  refine ⟨⟨?_, ?_⟩, ?_, ?_⟩
  · rw [mkMetaArray, checkInfoPure]
    simp only [if_neg (by omega : ¬ info.length > data.shape.length + 1)]
    rw [validateInfo_append data.shape info
      (List.replicate (data.shape.length + 1 - info.length) ({} : AxisSpec)) 0, hv]
    simp only [exc_ok_bind, validateInfo_replicate_empty]
  · simp only [List.length_append, List.length_replicate]
    omega
  · intro big hbig
    rw [mkMetaArray, checkInfoPure]
    simp only [if_pos hbig]
    rfl
  · intro anyInfo x hok
    cases anyInfo with
    | none =>
        rw [mkMetaArray, checkInfoPure] at hok
        simp only [exc_ok_bind] at hok
        cases hok
        simp
    | some l =>
        rw [mkMetaArray, checkInfoPure] at hok
        by_cases hbig : l.length > data.shape.length + 1
        · rw [if_pos hbig] at hok; simp at hok
        · rw [if_neg hbig] at hok
          cases hres : validateInfo data.shape 0
              (l ++ List.replicate (data.shape.length + 1 - l.length) ({} : AxisSpec)) with
          | error e => rw [hres] at hok; simp at hok
          | ok r =>
              rw [hres] at hok
              simp only [exc_ok_bind] at hok
              cases hok
              have hr := validateInfo_length data.shape _ r 0 hres
              simp only [List.length_append, List.length_replicate] at hr
              simp only [hr]
              omega

theorem c8_info_normalization_witness :
    (([({ name := some (AxName.str "ax0") } : AxisSpec)] : List AxisSpec).length
        < ([3] : List Nat).length + 1) ∧
    validateInfo [3] 0 [({ name := some (AxName.str "ax0") } : AxisSpec)]
      = Except.ok [({ name := some (AxName.str "ax0") } : AxisSpec)] ∧
    mkMetaArray ⟨[3], "float64", [1, 2, 3]⟩
        (some [({ name := some (AxName.str "ax0") } : AxisSpec)])
      = Except.ok ⟨⟨[3], "float64", [1, 2, 3]⟩,
          [({ name := some (AxName.str "ax0") } : AxisSpec)]
            ++ List.replicate (([3] : List Nat).length + 1 - 1) ({} : AxisSpec)⟩ :=
  ⟨by decide, rfl,
    ((c8_info_normalization ⟨[3], "float64", [1, 2, 3]⟩
      [({ name := some (AxName.str "ax0") } : AxisSpec)]
      [({ name := some (AxName.str "ax0") } : AxisSpec)]
      (by decide) rfl).1).1⟩


/-! ## CSV export (`writeCsv`, Table.py lines 1250-1272) -/

/-- Abstract rendering of Python's `"%g" % x`; the exact digit string is
immaterial to the exporter's control flow. -/
def gFormat (q : ℚ) : String := toString q.num ++ "/" ++ toString q.den

/-- The name of one column as joined into the CSV header line
(`",".join([x["name"] for x in self._info[0]["cols"]])`): a missing
`name` key raises, and a tuple name cannot be string-joined. -/
def colNameStr (c : Col) : Except Err String :=
  match c.name with
  | some (AxName.str s) => Except.ok s
  | some (AxName.tup _) => Except.error Err.typeError
  | Option.none => Except.error Err.keyError

def colNamesJoin : List Col → Except Err (List String)
  | [] => Except.ok []
  | c :: cs => do
      let s ← colNameStr c
      let rest ← colNamesJoin cs
      Except.ok (s :: rest)

/-- `MetaArray.writeCsv` with no file name (returning the text):
ranks above 2 raise the unsupported-rank error up front; then the header
is built from axis 0's columns if present; then `range(self.shape[1])`
is taken — which, for ranks below 2, fails on the `shape[1]` access
(an out-of-range tuple index), not with the rank error. Row `row` of the
output holds `self[:, row]`, i.e. the column of the buffer at position
`row` along axis 1. -/
def writeCsv (x : Instance) : Except Err String :=
  if x.ndim > 2 then Except.error Err.unsupportedRank
  else
    (match (x.info.getD 0 {}).cols with
      | some cs => do
          let names ← colNamesJoin cs
          Except.ok (String.intercalate "," names ++ "\n")
      | Option.none => Except.ok "") >>= fun header =>
    match x.data.shape.get? 1 with
    | Option.none => Except.error Err.indexError
    | some ncols =>
        let nrows := x.data.shape.getD 0 0
        let lines := (List.range ncols).map (fun row =>
          String.intercalate ","
            ((List.range nrows).map (fun i => gFormat (x.data.data.getD (i * ncols + row) 0)))
            ++ "\n")
        Except.ok (header ++ String.join lines)

/-- Whether the header construction of `writeCsv` can succeed: axis 0
carries no columns, or every column name is a plain string. -/
def colsCsvOk (x : Instance) : Bool :=
  match (x.info.getD 0 {}).cols with
  | some cs => cs.all (fun c => match c.name with
      | some (AxName.str _) => true
      | _ => false)
  | Option.none => true

theorem colNamesJoin_ok (cs : List Col)
    (h : cs.all (fun c => match c.name with
      | some (AxName.str _) => true
      | _ => false) = true) :
    ∃ names, colNamesJoin cs = Except.ok names := by
  induction cs with
  | nil => exact ⟨[], rfl⟩
  | cons c t ih =>
      simp only [List.all_cons, Bool.and_eq_true] at h
      obtain ⟨names, hn⟩ := ih h.2
      cases hc : c.name with
      | none => rw [hc] at h; simp at h
      | some nm =>
          cases nm with
          | tup ts => rw [hc] at h; simp at h
          | str s =>
              refine ⟨s :: names, ?_⟩
              rw [colNamesJoin, colNameStr, hc]
              simp [hn]

/-- C9 (amended). Export succeeds exactly for 2-D instances (given a
header that can be rendered): rank above 2 fails with the
unsupported-rank error, but rank below 2 passes the rank check and then
fails with an index error on the `shape[1]` access — not with the
unsupported-rank error. -/
theorem c9_csv_rank (x : Instance) (hc : colsCsvOk x = true) :
    (x.ndim = 2 → (writeCsv x).isOk = true) ∧
    (x.ndim > 2 → writeCsv x = Except.error Err.unsupportedRank) ∧
    (x.ndim < 2 → writeCsv x = Except.error Err.indexError) := by
  refine ⟨?_, ?_, ?_⟩
  · intro h2
    rw [writeCsv, if_neg (by omega : ¬ x.ndim > 2)]
    have hsh : ∃ a b, x.data.shape = [a, b] := List.length_eq_two.mp h2
    obtain ⟨a, b, hab⟩ := hsh
    rw [colsCsvOk] at hc
    cases hcols : (x.info.getD 0 {}).cols with
    | none =>
        rw [hab]
        rfl
    | some cs =>
        rw [hcols] at hc
        have hc2 : cs.all (fun c => match c.name with
            | some (AxName.str _) => true
            | _ => false) = true := hc
        obtain ⟨names, hn⟩ := colNamesJoin_ok cs hc2
        rw [hab]
        simp only [exc_ok_bind, hn]
        rfl
  · intro h2
    rw [writeCsv, if_pos h2]
  · intro h2
    have h2len : x.data.shape.length < 2 := h2
    have hget : x.data.shape.get? 1 = Option.none := by
      apply List.get?_eq_none.mpr
      omega
    rw [writeCsv, if_neg (by omega : ¬ x.ndim > 2)]
    rw [colsCsvOk] at hc
    cases hcols : (x.info.getD 0 {}).cols with
    | none =>
        simp only [exc_ok_bind, hget]
    | some cs =>
        rw [hcols] at hc
        have hc2 : cs.all (fun c => match c.name with
            | some (AxName.str _) => true
            | _ => false) = true := hc
        obtain ⟨names, hn⟩ := colNamesJoin_ok cs hc2
        simp only [exc_ok_bind, hn, hget]

/-- A rank-1 instance for the C9 counterexample. -/
def c9x : Instance := ⟨⟨[3], "float64", [1, 2, 3]⟩, [{}, {}]⟩

/-- C9 counterexample. A rank-1 instance fails CSV export, but with an
index error from the `shape[1]` access — the rank check `ndim > 2` lets
ranks below 2 through, so the claimed unsupported-rank error is not what
is raised. -/
theorem c9_csv_rank_counterexample :
    writeCsv c9x = Except.error Err.indexError ∧ Err.indexError ≠ Err.unsupportedRank :=
  ⟨rfl, by decide⟩

theorem c9_csv_rank_witness :
    colsCsvOk c9x = true ∧
    (c9x.ndim < 2 → writeCsv c9x = Except.error Err.indexError) ∧
    (c9x.ndim < 2) :=
  ⟨rfl, (c9_csv_rank c9x rfl).2.2, by decide⟩


/-! ## Heap model of descriptor-object identity

`checkInfo` mutates the caller's axis dictionaries in place, `infoCopy`
deep-copies them, `transpose` reuses them, and `_axisSlice` copies only
when side metadata is present. To state sharing and in-place mutation, a
heap of axis-description cells with numeric addresses stands for the
Python object store; an instance holds addresses instead of values. -/

abbrev Heap := List AxisSpec

/-- An instance whose `info` entries are heap addresses of the
descriptor dictionaries. -/
structure HInst where
  data : NDArray
  info : List Nat
deriving DecidableEq, Repr

def hread (h : Heap) (a : Nat) : AxisSpec := h.getD a {}

def hwrite (h : Heap) (a : Nat) (v : AxisSpec) : Heap := h.set a v

/-- Allocate one fresh dictionary. -/
def halloc (h : Heap) (v : AxisSpec) : Heap × Nat := (h ++ [v], h.length)

/-- Allocate a list of fresh dictionaries (`copy.deepcopy` of a
descriptor list allocates one new object per entry). -/
def hallocList (h : Heap) (vs : List AxisSpec) : Heap × List Nat :=
  (h ++ vs, List.range' h.length vs.length)

/-- The `checkInfo` validation loop on the heap: each supplied
dictionary is validated and the normalized dictionary is written back to
the same address (`info[i]["values"] = np.array(...)` mutates the
caller's object). -/
def checkInfoHGo (shape : List Nat) : Nat → List Nat → Heap → Except Err Heap
  | _, [], h => Except.ok h
  | i, a :: rest, h => do
      let ax2 ← validateEntry shape i (hread h a)
      checkInfoHGo shape (i + 1) rest (hwrite h a ax2)

/-- The `MetaArray(data, info)` constructor on the heap: `info =
list(info)` keeps the same dictionary objects, missing entries are
padded with freshly allocated empty dictionaries, and the supplied
dictionaries are normalized in place. -/
def constructH (h : Heap) (dataA : NDArray) (info : Option (List Nat)) :
    Except Err (Heap × HInst) :=
  let ndim := dataA.shape.length
  match info with
  | Option.none =>
      let alloc := hallocList h (List.replicate (ndim + 1) {})
      Except.ok (alloc.1, ⟨dataA, alloc.2⟩)
  | some addrs =>
      if addrs.length > ndim + 1 then Except.error Err.malformedHeader
      else
        let alloc := hallocList h (List.replicate (ndim + 1 - addrs.length) {})
        let addrs2 := addrs ++ alloc.2
        (checkInfoHGo dataA.shape 0 addrs2 alloc.1).map (fun h2 => (h2, ⟨dataA, addrs2⟩))

/-- `MetaArray.infoCopy`: a deep copy of the descriptor list — one fresh
cell per entry, holding the same contents. -/
def infoCopyH (h : Heap) (x : HInst) : Heap × List Nat :=
  hallocList h (x.info.map (hread h))

/-! Index arithmetic for row-major buffers. -/

def flatIdx (shape idx : List Nat) : Nat :=
  (shape.zip idx).foldl (fun acc p => acc * p.1 + p.2) 0

def unflat (shape : List Nat) (k : Nat) : List Nat :=
  (shape.reverse.foldl (fun (p : List Nat × Nat) d => (p.2 % d :: p.1, p.2 / d)) ([], k)).1

/-- `ndarray.transpose(order)` on the row-major model (`order` already
padded to the full rank). -/
def transposeData (order : List Nat) (a : NDArray) : NDArray :=
  let shape2 := order.map (fun i => a.shape.getD i 0)
  ⟨shape2, a.dtype,
    (List.range shape2.prod).map (fun k =>
      let ni := unflat shape2 k
      let oi := (List.range a.shape.length).map (fun i => ni.getD (order.indexOf i) 0)
      a.data.getD (flatIdx a.shape oi) 0)⟩

/-- An axis-collapsing numpy reduction (`mean`/`min`/`max` over `axis`),
parameterized by the scalar reduction `f`. -/
def reduceData (f : List ℚ → ℚ) (axis : Nat) (a : NDArray) : NDArray :=
  let shape2 := a.shape.eraseIdx axis
  ⟨shape2, a.dtype,
    (List.range shape2.prod).map (fun k =>
      let pi := unflat shape2 k
      f ((List.range (a.shape.getD axis 0)).map (fun j =>
        a.data.getD (flatIdx a.shape (pi.insertIdx axis j)) 0)))⟩

def meanList (l : List ℚ) : ℚ := l.sum / l.length

/-- Subsetting a per-axis side list (`np.array(ax["cols"])[cols]` /
`np.array(ax["values"])[cols]`) by a resolved selector. A single
position yields the one-element subset (the source then folds the lone
entry into the trailing descriptor); Python negative indices are outside
this model. -/
def selectList {α : Type} (sel : ResIdx) (l : List α) : Except Err (List α) :=
  match sel with
  | ResIdx.pos i =>
      if h : 0 ≤ i ∧ i.toNat < l.length then Except.ok [l.get ⟨i.toNat, h.2⟩]
      else Except.error Err.indexError
  | ResIdx.slice st sp ste =>
      match st, sp, ste with
      | PyIdx.none, PyIdx.none, PyIdx.none => Except.ok l
      | PyIdx.none, PyIdx.int b, PyIdx.none =>
          if 0 ≤ b then Except.ok (l.take b.toNat) else Except.error Err.indexError
      | PyIdx.int a2, PyIdx.none, PyIdx.none =>
          if 0 ≤ a2 then Except.ok (l.drop a2.toNat) else Except.error Err.indexError
      | PyIdx.int a2, PyIdx.int b, PyIdx.none =>
          if 0 ≤ a2 ∧ 0 ≤ b then Except.ok ((l.take b.toNat).drop a2.toNat)
          else Except.error Err.indexError
      | _, _, _ => Except.error Err.typeError
  | ResIdx.mask m =>
      if m.length = l.length then
        Except.ok ((l.zip m).filterMap (fun p => if p.2 then some p.1 else Option.none))
      else Except.error Err.indexError
  | ResIdx.idxList xs =>
      xs.mapM (fun i =>
        if h : 0 ≤ i ∧ i.toNat < l.length then Except.ok (l.get ⟨i.toNat, h.2⟩)
        else Except.error Err.indexError)
  | _ => Except.error Err.typeError

/-- Contents of the sliced copy `_axisSlice` builds when side metadata
is present: deep copy, then subset `cols` and `values` by the selector
(cols first, as in the source). -/
def axisSliceContent (cell : AxisSpec) (sel : ResIdx) : Except Err AxisSpec := do
  let cell2 ← match cell.cols with
    | some cs => (selectList sel cs).map (fun cs2 => { cell with cols := some cs2 })
    | Option.none => Except.ok cell
  match cell2.values with
  | some (ValSeq.arr a) =>
      (selectList sel a.vals).map (fun v2 =>
        { cell2 with values := some (ValSeq.arr ⟨a.dtype, v2⟩) })
  | some (ValSeq.pylist lv) =>
      (selectList sel lv).map (fun v2 =>
        { cell2 with values := some (ValSeq.arr ⟨defaultDtype, v2⟩) })
  | Option.none => Except.ok cell2

/-- `MetaArray._axisSlice` (Table.py lines 596-612) on the heap: when
axis `i` carries `cols` or `values`, a deep copy is made (`_axisCopy`),
subset, and returned as a fresh object; otherwise the original
dictionary itself is returned. -/
def axisSliceH (h : Heap) (x : HInst) (i : Nat) (sel : ResIdx) :
    Except Err (Heap × Nat) :=
  if i < x.info.length then
    let cell := hread h (x.info.getD i 0)
    if cell.cols.isSome || cell.values.isSome then
      (axisSliceContent cell sel).map (fun sliced => halloc h sliced)
    else Except.ok (h, x.info.getD i 0)
  else Except.error Err.indexError

/-- `MetaArray.transpose` (Table.py lines 691-709) on the heap: the new
info list is `[self._info[i] for i in infoOrder]` — the same dictionary
objects, reordered — handed to the constructor together with the
transposed buffer. -/
def transposeH (h : Heap) (x : HInst) (order : List Nat) : Except Err (Heap × HInst) :=
  let infoOrder := order ++ List.range' order.length (x.info.length - order.length)
  let dataOrder := order ++ List.range' order.length (x.data.shape.length - order.length)
  if infoOrder.all (fun i => i < x.info.length) then
    constructH h (transposeData dataOrder x.data)
      (some (infoOrder.map (fun i => x.info.getD i 0)))
  else Except.error Err.indexError

/-- `MetaArray.axisCollapsingFn` (Table.py lines 672-680) on the heap:
`info = self.infoCopy()` deep-copies every descriptor, the collapsed
axis entry is popped, and a new instance is constructed. -/
def collapseH (h : Heap) (f : List ℚ → ℚ) (x : HInst) (axis : Nat) :
    Except Err (Heap × HInst) :=
  let alloc := infoCopyH h x
  if axis < alloc.2.length then
    constructH alloc.1 (reduceData f axis x.data) (some (alloc.2.eraseIdx axis))
  else Except.error Err.indexError

def binopRhs (y : Sum HInst NDArray) : NDArray :=
  match y with
  | Sum.inl m => m.data
  | Sum.inr r => r

/-- `MetaArray._binop` (Table.py lines 320-330) on the heap: a
right-hand instance is coerced to its buffer, the raw operation `f`
(the wrapped numpy method) is applied, a result shape differing from the
left operand's raises, and otherwise a new instance is built carrying
`self.infoCopy()` — a deep copy of the left operand's info. -/
def binopH (h : Heap) (f : NDArray → NDArray → NDArray) (x : HInst)
    (y : Sum HInst NDArray) : Except Err (Heap × HInst) :=
  let b := binopRhs y
  let c := f x.data b
  if c.shape ≠ x.data.shape then Except.error Err.shapeMismatch
  else
    let alloc := infoCopyH h x
    constructH alloc.1 c (some alloc.2)

/-- Heap well-formedness of an instance: buffer matches shape, info has
`ndim + 1` addresses, all addresses are allocated, and the pointed-to
dictionaries are normalized and sized to their axes. -/
def HInst.hwf (x : HInst) (h : Heap) : Bool :=
  x.data.wfB && (x.info.length = x.data.shape.length + 1) &&
  x.info.all (fun a => a < h.length) && infoWfB x.data.shape 0 (x.info.map (hread h))


/-! Heap lemmas. -/

theorem getD_def {α : Type} (l : List α) (n : Nat) (d : α) : l.getD n d = (l[n]?).getD d := by
  rw [List.getD_eq_getElem?_getD]

theorem set_getD_self {α : Type} (d : α) : ∀ (l : List α) (n : Nat), l.set n (l.getD n d) = l := by
  intro l
  induction l with
  | nil => intro n; rfl
  | cons a t ih =>
      intro n
      cases n with
      | zero => rfl
      | succ m =>
          show a :: t.set m (t.getD m d) = a :: t
          rw [ih m]

theorem hread_hwrite_self (h : Heap) (a : Nat) (v : AxisSpec) (hb : a < h.length) :
    hread (hwrite h a v) a = v := by
  rw [hread, hwrite, getD_def, List.getElem?_set_self hb]
  rfl

theorem hread_hwrite_ne (h : Heap) (a b : Nat) (v : AxisSpec) (hne : a ≠ b) :
    hread (hwrite h a v) b = hread h b := by
  rw [hread, hwrite, hread, getD_def, getD_def, List.getElem?_set_ne hne]

theorem hwrite_length (h : Heap) (a : Nat) (v : AxisSpec) :
    (hwrite h a v).length = h.length := List.length_set h a v

theorem hread_append_left (h : Heap) (vs : List AxisSpec) (a : Nat) (hb : a < h.length) :
    hread (h ++ vs) a = hread h a := by
  rw [hread, hread, getD_def, getD_def, List.getElem?_append_left hb]

theorem hallocList_read : ∀ (vs : List AxisSpec) (h : Heap),
    (List.range' h.length vs.length).map (hread (h ++ vs)) = vs := by
  intro vs
  induction vs with
  | nil => intro h; rfl
  | cons v t ih =>
      intro h
      rw [List.length_cons, List.range'_succ, List.map_cons]
      have h1 : hread (h ++ v :: t) h.length = v := by
        rw [hread, getD_def, List.getElem?_append_right (Nat.le_refl h.length)]
        simp
      have h2 : h ++ v :: t = (h ++ [v]) ++ t := by simp
      have h3 : h.length + 1 = (h ++ [v]).length := by simp
      rw [h1, h2, h3, ih (h ++ [v])]

/-- A heap-wf axis description validates to itself. -/
theorem validateAxis_wf (extent : Nat) (ax : AxisSpec) (h : ax.wfAt extent = true) :
    validateAxis extent ax = Except.ok ax := by
  rcases ax with ⟨nm, un, vals, cols, vl, vt⟩
  simp only [AxisSpec.wfAt, axValuesWf, axColsWf, Bool.and_eq_true] at h
  cases vals with
  | none =>
      cases cols with
      | none => rfl
      | some cs =>
          have hcs : (decide (cs.length = extent) && cs.all Col.wf) = true := h.1.1.2
          simp only [Bool.and_eq_true, decide_eq_true_eq] at hcs
          simp [validateAxis, normalizeAx, hcs.1]
  | some vs =>
      cases vs with
      | pylist l => simp at h
      | arr a =>
          have hlen : a.vals.length = extent := by
            have := h.1.1.1
            simpa using this
          cases cols with
          | none => simp [validateAxis, normalizeAx, hlen]
          | some cs =>
              have hcs : (decide (cs.length = extent) && cs.all Col.wf) = true := h.1.1.2
              simp only [Bool.and_eq_true, decide_eq_true_eq] at hcs
              simp [validateAxis, normalizeAx, hlen, hcs.1]

/-- A wf entry passes `validateEntry` unchanged. -/
theorem validateEntry_wf (shape : List Nat) (i : Nat) (ax : AxisSpec)
    (h : (if hh : i < shape.length then ax.wfAt (shape.get ⟨i, hh⟩) else ax.wfLast) = true) :
    validateEntry shape i ax = Except.ok ax := by
  rw [validateEntry]
  split
  · rename_i hlt
    rw [dif_pos hlt] at h
    exact validateAxis_wf _ ax h
  · rfl

/-- The in-place validation loop leaves a heap of wf cells unchanged. -/
theorem checkInfoHGo_wf_id (shape : List Nat) : ∀ (addrs : List Nat) (i : Nat) (h : Heap),
    infoWfB shape i (addrs.map (hread h)) = true →
    checkInfoHGo shape i addrs h = Except.ok h := by
  intro addrs
  induction addrs with
  | nil => intro i h _; rfl
  | cons a t ih =>
      intro i h hwfb
      rw [List.map_cons, infoWfB, Bool.and_eq_true] at hwfb
      rw [checkInfoHGo, validateEntry_wf shape i (hread h a) hwfb.1]
      simp only [exc_ok_bind]
      have hwr : hwrite h a (hread h a) = h := by
        rw [hwrite, hread]; exact set_getD_self {} h a
      rw [hwr]
      exact ih (i + 1) h hwfb.2

/-- On a full-length wf address list the constructor is the identity on
the heap and stores exactly the given addresses. -/
theorem constructH_exact (h : Heap) (d : NDArray) (addrs : List Nat)
    (hlen : addrs.length = d.shape.length + 1)
    (hwfb : infoWfB d.shape 0 (addrs.map (hread h)) = true) :
    constructH h d (some addrs) = Except.ok (h, ⟨d, addrs⟩) := by
  simp only [constructH, hallocList, hlen, Nat.sub_self, List.replicate_zero,
    List.length_nil, List.range'_zero, List.append_nil, gt_iff_lt, lt_irrefl, if_false]
  rw [checkInfoHGo_wf_id d.shape addrs 0 h hwfb]
  rfl

/-- Inversion: whatever the constructor did to the heap, the instance it
returns holds the supplied addresses followed by the fresh padding. -/
theorem constructH_ok_info (h : Heap) (d : NDArray) (addrs : List Nat)
    (h2 : Heap) (z : HInst)
    (hok : constructH h d (some addrs) = Except.ok (h2, z)) :
    z.data = d ∧
    z.info = addrs ++ List.range' h.length (d.shape.length + 1 - addrs.length) ∧
    addrs.length ≤ d.shape.length + 1 ∧
    checkInfoHGo d.shape 0
        (addrs ++ List.range' h.length (d.shape.length + 1 - addrs.length))
        (h ++ List.replicate (d.shape.length + 1 - addrs.length) ({} : AxisSpec))
      = Except.ok h2 := by
  simp only [constructH, hallocList, List.length_replicate] at hok
  by_cases hbig : addrs.length > d.shape.length + 1
  · rw [if_pos hbig] at hok; simp at hok
  · rw [if_neg hbig] at hok
    cases hgo : checkInfoHGo d.shape 0
        (addrs ++ List.range' h.length (d.shape.length + 1 - addrs.length))
        (h ++ List.replicate (d.shape.length + 1 - addrs.length) ({} : AxisSpec)) with
    | error e => rw [hgo] at hok; simp [Except.map] at hok
    | ok h3 =>
        rw [hgo] at hok
        simp only [Except.map] at hok
        cases hok
        exact ⟨rfl, rfl, by omega, rfl⟩

/-- Every success of the per-axis validation is the in-place
normalization of the supplied dictionary. -/
theorem validateAxis_ok_norm (e : Nat) (ax v : AxisSpec)
    (h : validateAxis e ax = Except.ok v) : v = normalizeAx ax := by
  simp only [validateAxis] at h
  split at h <;> (try split at h) <;> (try split at h) <;> (try split at h) <;> simp_all

/-- Addresses outside the processed list are untouched by the
validation loop. -/
theorem checkInfoHGo_frame (shape : List Nat) : ∀ (addrs : List Nat) (i : Nat)
    (h h2 : Heap), checkInfoHGo shape i addrs h = Except.ok h2 →
    ∀ b, b ∉ addrs → hread h2 b = hread h b := by
  intro addrs
  induction addrs with
  | nil => intro i h h2 hok b _; cases hok; rfl
  | cons a t ih =>
      intro i h h2 hok b hb
      rw [checkInfoHGo] at hok
      cases hval : validateEntry shape i (hread h a) with
      | error e => rw [hval] at hok; simp at hok
      | ok v =>
          rw [hval] at hok
          simp only [exc_ok_bind] at hok
          have hbne : b ∉ t := fun hmem => hb (List.mem_cons_of_mem a hmem)
          have hane : a ≠ b := fun heq => hb (heq ▸ List.mem_cons_self a t)
          rw [ih (i + 1) (hwrite h a v) h2 hok b hbne, hread_hwrite_ne h a b v hane]

/-- The validation loop preserves the heap length. -/
theorem checkInfoHGo_length (shape : List Nat) : ∀ (addrs : List Nat) (i : Nat)
    (h h2 : Heap), checkInfoHGo shape i addrs h = Except.ok h2 →
    h2.length = h.length := by
  intro addrs
  induction addrs with
  | nil => intro i h h2 hok; cases hok; rfl
  | cons a t ih =>
      intro i h h2 hok
      rw [checkInfoHGo] at hok
      cases hval : validateEntry shape i (hread h a) with
      | error e => rw [hval] at hok; simp at hok
      | ok v =>
          rw [hval] at hok
          simp only [exc_ok_bind] at hok
          rw [ih (i + 1) (hwrite h a v) h2 hok, hwrite_length]

/-- What the validation loop leaves at each processed (distinct,
allocated) address: the validated form of what was there. -/
theorem checkInfoHGo_read (shape : List Nat) : ∀ (addrs : List Nat) (i : Nat)
    (h h2 : Heap), addrs.Nodup → (∀ a ∈ addrs, a < h.length) →
    checkInfoHGo shape i addrs h = Except.ok h2 →
    ∀ j (hj : j < addrs.length),
      ∃ v, validateEntry shape (i + j) (hread h (addrs.get ⟨j, hj⟩)) = Except.ok v ∧
        hread h2 (addrs.get ⟨j, hj⟩) = v := by
  intro addrs
  induction addrs with
  | nil => intro i h h2 _ _ _ j hj; simp at hj
  | cons a t ih =>
      intro i h h2 hnd hbd hok j hj
      rw [checkInfoHGo] at hok
      cases hval : validateEntry shape i (hread h a) with
      | error e => rw [hval] at hok; simp at hok
      | ok v =>
          rw [hval] at hok
          simp only [exc_ok_bind] at hok
          rw [List.nodup_cons] at hnd
          have hba : a < h.length := hbd a (List.mem_cons_self a t)
          cases j with
          | zero =>
              refine ⟨v, by simpa using hval, ?_⟩
              have hfr := checkInfoHGo_frame shape t (i + 1) (hwrite h a v) h2 hok a hnd.1
              rw [List.get]
              rw [hfr, hread_hwrite_self h a v hba]
          | succ m =>
              have hm : m < t.length := by simpa using hj
              have hbd2 : ∀ b ∈ t, b < (hwrite h a v).length := by
                intro b hbmem
                rw [hwrite_length]
                exact hbd b (List.mem_cons_of_mem a hbmem)
              obtain ⟨w, hw1, hw2⟩ := ih (i + 1) (hwrite h a v) h2 hnd.2 hbd2 hok m hm
              refine ⟨w, ?_, ?_⟩
              · have hane : a ≠ t.get ⟨m, hm⟩ := by
                  intro heq
                  exact hnd.1 (heq ▸ List.get_mem t m hm)
                rw [hread_hwrite_ne h a _ v hane] at hw1
                have harith : i + 1 + m = i + (m + 1) := by omega
                rw [harith] at hw1
                exact hw1
              · exact hw2


/-- C10. The constructor stores the caller-supplied descriptor
dictionaries by reference and normalizes them in place: the built
instance's info holds exactly the caller's addresses (padded with fresh
empties up to `ndim + 1`); at each supplied data-axis address the heap
afterwards holds the in-place normalization of the caller's dictionary
(a list-valued `values` became an ndarray inside the caller's own
object); and a second instance built from the same address list holds
the very same descriptor addresses, so the two instances share (and see
each other's mutations of) the same objects. -/
theorem c10_constructor_aliasing (h : Heap) (d : NDArray) (addrs : List Nat)
    (hb : ∀ a ∈ addrs, a < h.length) (hnd : addrs.Nodup)
    (h2 : Heap) (z : HInst)
    (hok : constructH h d (some addrs) = Except.ok (h2, z)) :
    z.info.take addrs.length = addrs ∧
    z.info.length = d.shape.length + 1 ∧
    (∀ j (hj : j < addrs.length), j < d.shape.length →
      hread h2 (addrs.get ⟨j, hj⟩) = normalizeAx (hread h (addrs.get ⟨j, hj⟩))) ∧
    (∀ h3 z2, constructH h2 d (some addrs) = Except.ok (h3, z2) →
      z2.info.take addrs.length = z.info.take addrs.length) := by
  obtain ⟨hzd, hzi, hle, hgo⟩ := constructH_ok_info h d addrs h2 z hok
  have htake : z.info.take addrs.length = addrs := by
    rw [hzi]; exact List.take_left addrs _
  refine ⟨htake, ?_, ?_, ?_⟩
  · rw [hzi]
    simp only [List.length_append, List.length_range']
    omega
  · intro j hj hjd
    have hnd2 : (addrs ++ List.range' h.length (d.shape.length + 1 - addrs.length)).Nodup := by
      refine List.Nodup.append hnd (List.nodup_range' _ _) ?_
      intro a ha har
      have h1 := hb a ha
      have hge := (List.mem_range'_1.mp har).1
      omega
    have hb2 : ∀ a ∈ addrs ++ List.range' h.length (d.shape.length + 1 - addrs.length),
        a < (h ++ List.replicate (d.shape.length + 1 - addrs.length) ({} : AxisSpec)).length := by
      intro a ha
      rcases List.mem_append.mp ha with h1 | h1
      · have := hb a h1
        simp only [List.length_append, List.length_replicate]
        omega
      · have := List.mem_range'_1.mp h1
        simp only [List.length_append, List.length_replicate]
        omega
    have hj2 : j < (addrs ++ List.range' h.length (d.shape.length + 1 - addrs.length)).length := by
      simp only [List.length_append]
      omega
    obtain ⟨v, hv1, hv2⟩ := checkInfoHGo_read d.shape
      (addrs ++ List.range' h.length (d.shape.length + 1 - addrs.length)) 0 _ h2
      hnd2 hb2 hgo j hj2
    have hgetj : (addrs ++ List.range' h.length (d.shape.length + 1 - addrs.length)).get ⟨j, hj2⟩
        = addrs.get ⟨j, hj⟩ := by
      rw [List.get_eq_getElem, List.get_eq_getElem, List.getElem_append_left]
    rw [hgetj] at hv1 hv2
    have hba : addrs.get ⟨j, hj⟩ < h.length := hb _ (List.get_mem addrs j hj)
    rw [hread_append_left h _ _ hba] at hv1
    rw [validateEntry] at hv1
    rw [dif_pos (by simpa using hjd)] at hv1
    rw [hv2]
    exact validateAxis_ok_norm _ _ v hv1
  · intro h3 z2 hok2
    obtain ⟨_, hzi2, _, _⟩ := constructH_ok_info h2 d addrs h3 z2 hok2
    rw [hzi2, htake, List.take_left]


/-- Caller-supplied heap for the C10 witness: the dictionary at address
0 carries a list-valued `values`. -/
def c10h : Heap := [{ values := some (ValSeq.pylist [1, 2, 3]) }, {}]

def c10d : NDArray := ⟨[3], "float64", [1, 2, 3]⟩

/-- The heap after construction: the caller's dictionary at address 0
now holds the array form. -/
def c10h2 : Heap := [{ values := some (ValSeq.arr ⟨"float64", [1, 2, 3]⟩) }, {}]

theorem c10_constructor_aliasing_witness :
    (∀ a ∈ ([0, 1] : List Nat), a < c10h.length) ∧
    constructH c10h c10d (some [0, 1]) = Except.ok (c10h2, ⟨c10d, [0, 1]⟩) ∧
    ((⟨c10d, [0, 1]⟩ : HInst).info.take ([0, 1] : List Nat).length = [0, 1] ∧
      (⟨c10d, [0, 1]⟩ : HInst).info.length = c10d.shape.length + 1 ∧
      (∀ j (hj : j < ([0, 1] : List Nat).length), j < c10d.shape.length →
        hread c10h2 (([0, 1] : List Nat).get ⟨j, hj⟩)
          = normalizeAx (hread c10h (([0, 1] : List Nat).get ⟨j, hj⟩))) ∧
      (∀ h3 z2, constructH c10h2 c10d (some [0, 1]) = Except.ok (h3, z2) →
        z2.info.take ([0, 1] : List Nat).length
          = (⟨c10d, [0, 1]⟩ : HInst).info.take ([0, 1] : List Nat).length)) :=
  ⟨by decide, rfl,
    c10_constructor_aliasing c10h c10d [0, 1] (by decide) (by decide) c10h2
      ⟨c10d, [0, 1]⟩ rfl⟩

/-- C7. A binary elementwise operation coerces a right-hand instance to
its raw buffer, fails with the shape-mismatch error whenever the raw
result's shape differs from the left operand's, and otherwise returns a
new instance whose info is a deep copy of the left operand's info,
unchanged: the new descriptors are freshly allocated (none shared with
the left operand) and read back exactly the left operand's
descriptors. -/
theorem c7_binop_info (h : Heap) (f : NDArray → NDArray → NDArray) (x : HInst)
    (y : Sum HInst NDArray) (hwf : x.hwf h = true) :
    ((f x.data (binopRhs y)).shape ≠ x.data.shape →
      binopH h f x y = Except.error Err.shapeMismatch) ∧
    ((f x.data (binopRhs y)).shape = x.data.shape →
      binopH h f x y = Except.ok (h ++ x.info.map (hread h),
        ⟨f x.data (binopRhs y), List.range' h.length x.info.length⟩) ∧
      (List.range' h.length x.info.length).map (hread (h ++ x.info.map (hread h)))
        = x.info.map (hread h) ∧
      (∀ a ∈ List.range' h.length x.info.length, a ∉ x.info)) := by
  rw [HInst.hwf] at hwf
  simp only [Bool.and_eq_true, decide_eq_true_eq] at hwf
  obtain ⟨⟨⟨hdwf, hilen⟩, hball⟩, hiwf⟩ := hwf
  constructor
  · intro hne
    rw [binopH, if_pos hne]
  · intro heq
    have hinfo_read : (List.range' h.length x.info.length).map
        (hread (h ++ x.info.map (hread h))) = x.info.map (hread h) := by
      have := hallocList_read (x.info.map (hread h)) h
      simpa using this
    refine ⟨?_, hinfo_read, ?_⟩
    · rw [binopH, if_neg (by simp [heq])]
      simp only [infoCopyH, hallocList, List.length_map]
      have hexact := constructH_exact (h ++ x.info.map (hread h))
        (f x.data (binopRhs y)) (List.range' h.length x.info.length)
        (by simp [heq, hilen]) (by rw [hinfo_read, heq]; exact hiwf)
      exact hexact
    · intro a ha hax
      have hge := (List.mem_range'_1.mp ha).1
      have hlt := List.all_eq_true.mp hball a hax
      simp only [decide_eq_true_eq] at hlt
      omega

def c7h : Heap := [{ name := some (AxName.str "z") }, {}]

def c7x : HInst := ⟨⟨[2], "float64", [1, 2]⟩, [0, 1]⟩

/-- Pointwise addition of equal-shape buffers, one concrete raw numpy
binary method for the witness. -/
def c7f (a b : NDArray) : NDArray := ⟨a.shape, a.dtype, List.zipWith (fun p q => p + q) a.data b.data⟩

theorem c7_binop_info_witness :
    c7x.hwf c7h = true ∧
    (c7f c7x.data (binopRhs (Sum.inr ⟨[2], "float64", [10, 20]⟩))).shape = c7x.data.shape ∧
    (binopH c7h c7f c7x (Sum.inr ⟨[2], "float64", [10, 20]⟩)
        = Except.ok (c7h ++ c7x.info.map (hread c7h),
            ⟨c7f c7x.data (binopRhs (Sum.inr ⟨[2], "float64", [10, 20]⟩)),
             List.range' c7h.length c7x.info.length⟩) ∧
      (List.range' c7h.length c7x.info.length).map (hread (c7h ++ c7x.info.map (hread c7h)))
        = c7x.info.map (hread c7h) ∧
      (∀ a ∈ List.range' c7h.length c7x.info.length, a ∉ c7x.info)) :=
  ⟨by decide, rfl,
    (c7_binop_info c7h c7f c7x (Sum.inr ⟨[2], "float64", [10, 20]⟩) (by decide)).2 rfl⟩


/-- C6 (amended). How each metadata-producing operation treats
descriptor-object identity: axis reduction (`axisCollapsingFn` via
`infoCopy`) returns an instance whose descriptors are all freshly
allocated — none shared with the original; `transpose` hands the very
same descriptor objects (reordered) to the new instance — all shared;
and `_axisSlice`, which supplies `get`'s per-axis descriptors, returns a
fresh deep copy exactly when the axis carries `values` or `cols`, and
the original object itself otherwise. -/
theorem c6_metadata_copy (h : Heap) (x : HInst) (f : List ℚ → ℚ) (axis : Nat)
    (hwf : x.hwf h = true) :
    (∀ h2 z, collapseH h f x axis = Except.ok (h2, z) → ∀ a ∈ z.info, a ∉ x.info) ∧
    (∀ ord h2 z, ord.length ≤ x.data.shape.length →
      transposeH h x ord = Except.ok (h2, z) → ∀ a ∈ z.info, a ∈ x.info) ∧
    (∀ i sel h2 a2, axisSliceH h x i sel = Except.ok (h2, a2) →
      ((((hread h (x.info.getD i 0)).cols.isSome
          || (hread h (x.info.getD i 0)).values.isSome) = true →
        h.length ≤ a2 ∧ a2 ∉ x.info) ∧
       (((hread h (x.info.getD i 0)).cols.isSome
          || (hread h (x.info.getD i 0)).values.isSome) = false →
        a2 = x.info.getD i 0))) := by
  rw [HInst.hwf] at hwf
  simp only [Bool.and_eq_true, decide_eq_true_eq] at hwf
  obtain ⟨⟨⟨hdwf, hilen⟩, hball⟩, hiwf⟩ := hwf
  have hmemlt : ∀ a ∈ x.info, a < h.length := by
    intro a hax
    have := List.all_eq_true.mp hball a hax
    simpa using this
  refine ⟨?_, ?_, ?_⟩
  · intro h2 z hok a haz hax
    simp only [collapseH, infoCopyH, hallocList] at hok
    split at hok
    · obtain ⟨_, hzi, _, _⟩ := constructH_ok_info _ _ _ _ _ hok
      rw [hzi] at haz
      have halt := hmemlt a hax
      rcases List.mem_append.mp haz with h1 | h1
      · have h3 := List.eraseIdx_subset _ _ h1
        have hge := (List.mem_range'_1.mp h3).1
        omega
      · have hge := (List.mem_range'_1.mp h1).1
        simp only [List.length_append] at hge
        omega
    · simp at hok
  · intro ord h2 z hord hok a haz
    rw [transposeH] at hok
    split at hok
    · rename_i hall
      obtain ⟨_, hzi, _, _⟩ := constructH_ok_info _ _ _ _ _ hok
      have hlen2 : (transposeData
          (ord ++ List.range' ord.length (x.data.shape.length - ord.length))
          x.data).shape.length = x.data.shape.length := by
        simp only [transposeData, List.length_map, List.length_append,
          List.length_range']
        omega
      have haddlen : ((ord ++ List.range' ord.length (x.info.length - ord.length)).map
          (fun i => x.info.getD i 0)).length = x.info.length := by
        simp only [List.length_map, List.length_append, List.length_range']
        omega
      have hz : (transposeData
          (ord ++ List.range' ord.length (x.data.shape.length - ord.length))
          x.data).shape.length + 1
          - ((ord ++ List.range' ord.length (x.info.length - ord.length)).map
              (fun i => x.info.getD i 0)).length = 0 := by
        rw [hlen2, haddlen]
        omega
      rw [hzi] at haz
      rw [hz, List.range'_zero, List.append_nil] at haz
      obtain ⟨i, hi1, hi2⟩ := List.mem_map.mp haz
      have hilt : i < x.info.length := by
        have := List.all_eq_true.mp hall i hi1
        simpa using this
      rw [← hi2, List.getD_eq_getElem x.info 0 hilt]
      exact List.getElem_mem hilt
    · simp at hok
  · intro i sel h2 a2 hok
    simp only [axisSliceH] at hok
    split at hok
    · split at hok
      · rename_i hcond
        cases hcont : axisSliceContent (hread h (x.info.getD i 0)) sel with
        | error e => rw [hcont] at hok; simp [Except.map] at hok
        | ok sliced =>
            rw [hcont] at hok
            simp only [Except.map, halloc] at hok
            cases hok
            constructor
            · intro _
              refine ⟨Nat.le_refl _, ?_⟩
              intro hax
              have := hmemlt _ hax
              omega
            · intro hfalse
              rw [hcond] at hfalse
              simp at hfalse
      · rename_i hcond
        cases hok
        constructor
        · intro htrue
          rw [htrue] at hcond
          simp at hcond
        · intro _
          rfl
    · simp at hok

/-- Heap and instance for C6: three plain named descriptors at
addresses 0, 1, 2. -/
def c6h : Heap :=
  [{ name := some (AxName.str "r") }, { name := some (AxName.str "c") }, {}]

def c6x : HInst := ⟨⟨[2, 2], "float64", [1, 2, 3, 4]⟩, [0, 1, 2]⟩

/-- C6 counterexample. `transpose` does not deep-copy: the transposed
instance's info holds the very same descriptor addresses (reordered) as
the original, so every axis-descriptor object is shared between the two
instances, refuting the claim that no descriptor is ever shared with a
derived instance. -/
theorem c6_transpose_shares_counterexample :
    transposeH c6h c6x [1, 0]
      = Except.ok (c6h, ⟨⟨[2, 2], "float64", [1, 3, 2, 4]⟩, [1, 0, 2]⟩) ∧
    1 ∈ c6x.info ∧ 0 ∈ c6x.info ∧ 2 ∈ c6x.info :=
  ⟨rfl, by decide⟩

theorem c6_metadata_copy_witness :
    c6x.hwf c6h = true ∧
    (∀ a ∈ (⟨⟨[2, 2], "float64", [1, 3, 2, 4]⟩, [1, 0, 2]⟩ : HInst).info,
      a ∈ c6x.info) :=
  ⟨by decide,
    (c6_metadata_copy c6h c6x meanList 0 (by decide)).2.1 [1, 0] c6h
      ⟨⟨[2, 2], "float64", [1, 3, 2, 4]⟩, [1, 0, 2]⟩ (by decide) rfl⟩


/-! ## Flat binary format (`writeMa` / `_readData1` / `_readData2`)

A flat file is its evaluable header (shape, dtype name, serialized axis
descriptions, version), the static per-axis value blocks that follow the
header, and the remaining payload: one contiguous raw block, one pickled
block (dtype `object`), or a sequence of dynamic-axis frames.

The module is Python-3-only (it contains f-strings, line 1635), and the
legacy flat-format code mixes `str` and the `bytes` of its binary-mode
file handles: the header write of `writeMa` (line 1231, and the
frame-record write at line 1246) passes `str` to a `"wb"` handle and
raises `TypeError`; `_readMeta` concatenates the `bytes` header lines
to a `str` (line 761) and raises `TypeError` on every flat file; and
the dynamic frame loop of `_readData2` compares `bytes` lines to the
`str` sentinels `"\x0a"` and `""` (lines 839-841), so the skip/EOF tests
never fire and `eval` of the separator line raises `SyntaxError`. The
definitions below model the format and the functions' internal logic,
with these unconditional raises at their source positions. -/

/-- One dynamic-axis frame: the evaluated frame record
(`{len, numFrames, xVals?}`) together with its data block, already
decoded elementwise (raw `fromstring` or `pickle.loads`, per the file
dtype). -/
structure Frame where
  numFrames : Nat
  xVals : Option (List ℚ) := none
  data : List ℚ
deriving DecidableEq, Repr

inductive FlatPayload where
  | raw (data : List ℚ)
  | pickled (data : List ℚ)
  | frames (fs : List Frame)
deriving DecidableEq, Repr

/-- The evaluated header mapping
(`{'shape': ..., 'type': ..., 'info': ..., 'version': ...}`). -/
structure HeaderMeta where
  shape : List Nat
  type : String
  info : List AxisSpec
  version : String
deriving DecidableEq, Repr

structure FlatFile where
  meta : HeaderMeta
  blocks : List NDArray1
  payload : FlatPayload
deriving DecidableEq, Repr

def metaVersion : String := "2"

/-- Row-major chunks of `n` elements. -/
def chunkList {α : Type} (n : Nat) (l : List α) : List (List α) :=
  (List.range ((l.length + n - 1) / n)).map (fun i => (l.drop (i * n)).take n)

/-- Elements per slab at and after axis `d`. -/
def innerSize (shape : List Nat) (d : Nat) : Nat := (shape.drop d).prod

/-- `np.concatenate((a, b), axis=d)` on the row-major model: the slabs
of the two arrays over the leading axes are interleaved. -/
def concatAlong (d : Nat) (a b : NDArray) : NDArray :=
  ⟨a.shape.set d (a.shape.getD d 0 + b.shape.getD d 0), a.dtype,
    (List.zipWith (fun p q => p ++ q)
      (chunkList (innerSize a.shape d) a.data)
      (chunkList (innerSize b.shape d) b.data)).flatten⟩

/-- `np.concatenate(frames, axis=d)`: empty input raises. -/
def concatAll (d : Nat) : List NDArray → Except Err NDArray
  | [] => Except.error Err.emptyConcat
  | a :: rest => Except.ok (rest.foldl (concatAlong d) a)

/-- Serialization of one axis description in `writeMa`: a `values`
array is moved out into a byte block and replaced by its
`values_len`/`values_type` keys; a raw Python list has no `tostring`
and raises. -/
def serAxis (ax : AxisSpec) : Except Err (AxisSpec × Option NDArray1) :=
  match ax.values with
  | some (ValSeq.arr a) =>
      Except.ok
        ({ ax with
            values := Option.none,
            valuesLen := some (VLen.len a.byteLen),
            valuesType := some a.dtype }, some a)
  | some (ValSeq.pylist _) => Except.error Err.typeError
  | Option.none => Except.ok (ax, Option.none)

def serAxes : List AxisSpec → Except Err (List (AxisSpec × Option NDArray1))
  | [] => Except.ok []
  | ax :: rest => do
      let p ← serAxis ax
      let ps ← serAxes rest
      Except.ok (p :: ps)

/-- `MetaArray.writeMa` (Table.py lines 1191-1248). The serialization
loop (lines 1216-1221) runs first and moves each `values` array out
into a byte block, recording `values_len`/`values_type` (a raw Python
list has no `tostring` and raises there). Then the file is opened in
binary mode and `fd.write(str(meta) + ...)` (line 1231; line 1246 on
the append path) passes `str` to the `"wb"`/`"ab"` handle, raising
`TypeError` under Python 3 — so writing a flat file never succeeds. -/
def writeMa (x : Instance) : Except Err FlatFile := do
  let _ ← serAxes x.info
  Except.error Err.typeError

/-- The static-axis pass of `_readData2` (Table.py lines 791-805): for
each axis declaring a `values_len`, either record it as the (unique)
dynamic axis, or consume that many bytes from the value-block region
and decode them as `values_type`. Reading a block with a dtype other
than the one it was written with would be a byte-level reinterpretation
and is reported as an error here. -/
def scanStatic : List AxisSpec → List NDArray1 → Option Nat → Nat →
    Except Err (List AxisSpec × List NDArray1 × Option Nat)
  | [], blocks, dyn, _ => Except.ok ([], blocks, dyn)
  | ax :: rest, blocks, dyn, i =>
      match ax.valuesLen with
      | some VLen.dyn =>
          if dyn.isSome then Except.error Err.multipleDynamicAxes
          else do
            let r ← scanStatic rest blocks (some i) (i + 1)
            Except.ok (ax :: r.1, r.2)
      | some (VLen.len n) =>
          match blocks with
          | [] => Except.error Err.malformedHeader
          | b :: bs =>
              match ax.valuesType with
              | some vt =>
                  if b.byteLen = n ∧ b.dtype = vt then do
                    let r ← scanStatic rest bs dyn (i + 1)
                    Except.ok
                      ({ ax with
                          values := some (ValSeq.arr b),
                          valuesLen := Option.none,
                          valuesType := Option.none } :: r.1, r.2)
                  else Except.error Err.malformedHeader
              | Option.none => Except.error Err.keyError
      | Option.none => do
          let r ← scanStatic rest blocks dyn (i + 1)
          Except.ok (ax :: r.1, r.2)

/-- The dynamic-axis frame loop of `_readData2` (Table.py lines
835-886) under Python 3: `fd.readline()` yields `bytes`, so the
blank-line skip `line != "\n"` breaks immediately on every line and
the EOF test `line == ""` never fires; the first line after the static
blocks — the `b"\n"` separator `writeMa` put before each frame record,
or `b""` at end of file — is handed to `eval`, which raises
`SyntaxError` before any frame is decoded. The frame-size check, the
concatenation along the dynamic axis, the `xVals` extension and the
trailing `del ax["values_len"]` / `del ax["values_type"]` (lines
854-886; the latter would raise `KeyError` for a dynamic axis that
declares no `values_type`) are unreachable. -/
def readDynamic (_meta : HeaderMeta) (_info1 : List AxisSpec) (_d : Nat)
    (_fs : List Frame) : Except Err Instance :=
  Except.error Err.syntaxError

/-- `_readData2` (Table.py lines 787-888): static pass, then either the
one-shot whole-array read (raw or pickled per the dtype) or the
dynamic-axis frame loop, whose first `eval` of a `bytes` line raises
whatever the remaining stream holds. -/
def readData2 (meta : HeaderMeta) (blocks : List NDArray1) (payload : FlatPayload) :
    Except Err Instance := do
  let r ← scanStatic meta.info blocks Option.none 0
  match r.2.2 with
  | Option.none =>
      if r.2.1 ≠ [] then Except.error Err.malformedHeader
      else
        match payload with
        | FlatPayload.raw dataL =>
            if meta.type = "object" then Except.error Err.malformedHeader
            else if dataL.length = meta.shape.prod then
              Except.ok ⟨⟨meta.shape, meta.type, dataL⟩, r.1⟩
            else Except.error Err.shapeMismatch
        | FlatPayload.pickled dataL =>
            if meta.type = "object" then
              if dataL.length = meta.shape.prod then
                Except.ok ⟨⟨meta.shape, meta.type, dataL⟩, r.1⟩
              else Except.error Err.shapeMismatch
            else Except.error Err.malformedHeader
        | FlatPayload.frames _ => Except.error Err.malformedHeader
  | some d =>
      match payload with
      | FlatPayload.frames fs => readDynamic meta r.1 d fs
      | _ => Except.error Err.syntaxError

/-- `readFile` on a flat (non-HDF5) file (Table.py lines 726-748):
after the magic-number check fails, `_readMeta` reads the header.
Under Python 3 `_readMeta` accumulates `meta += line` with `meta` a
`str` and `line` the `bytes` of the `"rb"` handle, raising `TypeError`
on the very first header line (line 761; the blank-line test at line
759 compares `bytes` to `str` and cannot break first) — so loading any
flat file fails before the version dispatch to `_readData1` /
`_readData2` is reached. -/
def loadFlat (_file : FlatFile) : Except Err Instance :=
  Except.error Err.typeError


/-! C3 machinery. -/

/-- C3 (amended). Decoding a version-2 flat file with a dynamic axis
never returns the concatenated array: the frame loop of `_readData2`
compares the `bytes` lines of the binary handle against the `str`
sentinels `"\n"` (blank-line skip) and `""` (end of file), so neither
test ever fires, and the first line after the static value blocks is
handed to `eval` and raises `SyntaxError` before any frame is decoded.
(Had the loop completed, a dynamic axis declaring no `values_type` —
which `writeMa` itself produced when the append axis carried no
values — would still raise `KeyError` at the unconditional
`del ax["values_type"]`, line 886.) -/
theorem c3_dynamic_axis_decode (meta : HeaderMeta) (blocks : List NDArray1)
    (payload : FlatPayload) (info1 : List AxisSpec) (bl : List NDArray1) (d : Nat)
    (hscan : scanStatic meta.info blocks Option.none 0 = Except.ok (info1, bl, some d)) :
    readData2 meta blocks payload = Except.error Err.syntaxError := by
  rw [readData2]
  rw [hscan]
  simp only [exc_ok_bind]
  cases payload with
  | raw l => rfl
  | pickled l => rfl
  | frames fs => rfl

/-- Dynamic axis description for the C3 counterexample and witness. -/
def c3ax0 : AxisSpec := { valuesLen := some VLen.dyn, valuesType := some "float64" }

/-- Header of a v2 flat file whose axis 0 is dynamic. -/
def c3meta : HeaderMeta := ⟨[3, 2], "float64", [c3ax0, {}, {}], "2"⟩

/-- Two frames of extents 3 and 2 along axis 0, with declared
`xVals`. -/
def c3fs : List Frame :=
  [⟨3, some [0, 1, 2], [1, 2, 3, 4, 5, 6]⟩, ⟨2, some [3, 4], [7, 8, 9, 10]⟩]

/-- C3 counterexample. The claim's concrete two-frame (extents 3 and 2)
v2 dynamic file decodes to the frame loop's `SyntaxError`, not to the
combined extent-5 array. -/
theorem c3_dynamic_axis_counterexample :
    readData2 c3meta [] (FlatPayload.frames c3fs) = Except.error Err.syntaxError := rfl

theorem c3_dynamic_axis_decode_witness :
    scanStatic c3meta.info [] Option.none 0
      = Except.ok (c3meta.info, [], some 0) ∧
    readData2 c3meta [] (FlatPayload.frames c3fs) = Except.error Err.syntaxError :=
  ⟨rfl, c3_dynamic_axis_decode c3meta [] (FlatPayload.frames c3fs) c3meta.info [] 0 rfl⟩


/-! ## HDF5 container format (`writeHDF5` / `_readHDF5` /
`writeHDF5Meta` / `readHDF5Meta`)

Non-numeric scalars are stored as their `repr()` text and re-`eval`ed on
read; sequence entries are stored as children named by their decimal
position and re-ordered by `int(key)` on read. Both textual round trips
are modelled explicitly below. -/

/-- Python `repr` of a string: quoted, with quote and backslash
escaped. -/
def escChar (c : Char) : List Char :=
  if c = '\'' ∨ c = '\\' then ['\\', c] else [c]

def pyReprStr (s : String) : String :=
  ⟨'\'' :: (s.data.flatMap escChar ++ ['\''])⟩

/-- Inverse of the escape, consuming the closing quote. -/
def unqChars : List Char → Option (List Char)
  | [] => Option.none
  | c :: rest =>
      if c = '\'' then (if rest = [] then some [] else Option.none)
      else if c = '\\' then
        match rest with
        | [] => Option.none
        | c2 :: rest2 => (unqChars rest2).map (fun cs => c2 :: cs)
      else (unqChars rest).map (fun cs => c :: cs)

/-- A scalar produced by re-`eval`ing a stored attribute string. -/
inductive PyLit where
  | str (s : String)
  | bool (b : Bool)
  | noneLit
deriving DecidableEq, Repr

/-- `eval` of a stored scalar repr. -/
def pyEvalStr (s : String) : Except Err PyLit :=
  if s = "True" then Except.ok (PyLit.bool true)
  else if s = "False" then Except.ok (PyLit.bool false)
  else if s = "None" then Except.ok PyLit.noneLit
  else
    match s.data with
    | '\'' :: rest =>
        match unqChars rest with
        | some cs => Except.ok (PyLit.str ⟨cs⟩)
        | Option.none => Except.error Err.metadataDecode
    | _ => Except.error Err.metadataDecode

theorem unqChars_escape (s : List Char) :
    unqChars (s.flatMap escChar ++ ['\'']) = some s := by
  induction s with
  | nil => rfl
  | cons c cs ih =>
      by_cases hesc : c = '\'' ∨ c = '\\'
      · rw [List.flatMap_cons, escChar, if_pos hesc]
        show (unqChars (cs.flatMap escChar ++ ['\''])).map (fun l => c :: l)
            = some (c :: cs)
        rw [ih]
        rfl
      · push_neg at hesc
        rw [List.flatMap_cons, escChar, if_neg (by tauto)]
        rw [List.singleton_append, List.cons_append, unqChars.eq_def]
        simp only [if_neg hesc.1, if_neg hesc.2, ih]
        rfl

theorem repr_data (s : String) :
    (pyReprStr s).data = '\'' :: (s.data.flatMap escChar ++ ['\'']) := rfl

theorem repr_ne_kw (s : String) (t : String) (ht : t.data.head? ≠ some '\'') :
    pyReprStr s ≠ t := by
  intro h
  have hd := congrArg String.data h
  rw [repr_data] at hd
  apply ht
  rw [← hd]
  rfl

theorem pyEvalStr_pyReprStr (s : String) :
    pyEvalStr (pyReprStr s) = Except.ok (PyLit.str s) := by
  rw [pyEvalStr]
  rw [if_neg (repr_ne_kw s "True" (by decide)),
    if_neg (repr_ne_kw s "False" (by decide)),
    if_neg (repr_ne_kw s "None" (by decide))]
  rw [repr_data]
  simp only [unqChars_escape s.data]

/-! Positional child names. `writeHDF5Meta` names the children of a
list/tuple group `str(i)`, and `readHDF5Meta` rebuilds the sequence with
`d2[int(k)] = data[k]`; both conversions are modelled with explicit-fuel
recursions the kernel can evaluate. -/

/-- Decimal digits of `n`, least significant first. -/
def digitsRevF : Nat → Nat → List Nat
  | 0, _ => []
  | _ + 1, 0 => []
  | fuel + 1, n => n % 10 :: digitsRevF fuel (n / 10)

def digitChar (d : Nat) : Char :=
  if d = 0 then '0' else if d = 1 then '1' else if d = 2 then '2'
  else if d = 3 then '3' else if d = 4 then '4' else if d = 5 then '5'
  else if d = 6 then '6' else if d = 7 then '7' else if d = 8 then '8' else '9'

/-- Python `str(i)` on a nonnegative integer. -/
def natRepr (n : Nat) : String :=
  if n = 0 then "0" else ⟨((digitsRevF n n).map digitChar).reverse⟩

def charDigit (c : Char) : Option Nat :=
  if c = '0' then some 0 else if c = '1' then some 1 else if c = '2' then some 2
  else if c = '3' then some 3 else if c = '4' then some 4 else if c = '5' then some 5
  else if c = '6' then some 6 else if c = '7' then some 7 else if c = '8' then some 8
  else if c = '9' then some 9 else Option.none

def natParseChars : List Char → Nat → Option Nat
  | [], acc => some acc
  | c :: rest, acc =>
      match charDigit c with
      | some d => natParseChars rest (acc * 10 + d)
      | Option.none => Option.none

/-- Python `int(s)` on a decimal digit string (`None` models the
`ValueError` on a malformed literal). -/
def natParse (s : String) : Option Nat :=
  if s.data = [] then Option.none else natParseChars s.data 0

theorem charDigit_digitChar (d : Nat) (h : d < 10) : charDigit (digitChar d) = some d := by
  interval_cases d <;> rfl

theorem natParseChars_append (l1 l2 : List Char) (acc m : Nat)
    (h : natParseChars l1 acc = some m) :
    natParseChars (l1 ++ l2) acc = natParseChars l2 m := by
  induction l1 generalizing acc with
  | nil => simp [natParseChars] at h; simp [h, natParseChars]
  | cons c rest ih =>
      rw [natParseChars] at h
      show natParseChars (c :: (rest ++ l2)) acc = natParseChars l2 m
      rw [natParseChars]
      cases hc : charDigit c with
      | none => rw [hc] at h; simp at h
      | some d => rw [hc] at h; exact ih _ h

theorem digitsRevF_succ (fuel m : Nat) :
    digitsRevF (fuel + 1) (m + 1) = (m + 1) % 10 :: digitsRevF fuel ((m + 1) / 10) := rfl

theorem digitsRevF_parse (fuel : Nat) : ∀ n acc, n ≤ fuel →
    natParseChars (((digitsRevF fuel n).map digitChar).reverse) acc
      = some (acc * 10 ^ (digitsRevF fuel n).length + n) := by
  induction fuel with
  | zero => intro n acc h; interval_cases n; simp [digitsRevF, natParseChars]
  | succ fuel ih =>
      intro n acc h
      cases n with
      | zero => simp [digitsRevF, natParseChars]
      | succ m =>
          rw [digitsRevF_succ, List.map_cons, List.reverse_cons]
          have hle : (m + 1) / 10 ≤ fuel := by omega
          rw [natParseChars_append _ _ _ _ (ih _ acc hle)]
          simp only [natParseChars, charDigit_digitChar _ (Nat.mod_lt _ (by norm_num))]
          simp only [List.length_cons, pow_succ]
          congr 1
          have hdm := Nat.div_add_mod (m + 1) 10
          set L := (digitsRevF fuel ((m + 1) / 10)).length with hL
          ring_nf
          omega

/-- `int(str(i)) = i`: the positional child names round trip. -/
theorem natParse_natRepr (n : Nat) : natParse (natRepr n) = some n := by
  cases n with
  | zero => rfl
  | succ m =>
      have hne : natRepr (m + 1) = ⟨((digitsRevF (m + 1) (m + 1)).map digitChar).reverse⟩ := by
        rw [natRepr, if_neg (by omega)]
      rw [hne, natParse]
      rw [digitsRevF_succ, List.map_cons, List.reverse_cons]
      rw [if_neg (by simp)]
      have := digitsRevF_parse (m + 1) (m + 1) 0 (le_refl _)
      rw [digitsRevF_succ, List.map_cons, List.reverse_cons] at this
      simpa using this

/-! ## The HDF5 container (`writeHDF5` / `writeHDF5Meta` /
`readHDF5Meta` / `_readHDF5`, Table.py lines 890-1154)

`writeHDF5Meta` recursively serializes an arbitrary Python value into a
group tree: ndarrays become datasets, lists/tuples/dicts become groups
tagged with a `_metaType_` attribute, ints and floats become numeric
attributes, and everything else is stored as its `repr` string.
`readHDF5Meta` walks the tree back, re-`eval`ing string attributes. The
Python values the metadata passes through are modelled by `PyVal`. -/

/-- A Python value handled by the metadata serializer. -/
inductive PyVal where
  | str (s : String)
  | bool (b : Bool)
  | noneV
  | num (q : ℚ)
  | arr (a : NDArray1)
  | list (xs : List PyVal)
  | tup (xs : List PyVal)
  | dict (kvs : List (String × PyVal))

/-- An HDF5 attribute value: a stored number, or a stored string. -/
inductive H5Attr where
  | num (q : ℚ)
  | str (s : String)

/-- An HDF5 object: a dataset, or a group with its `_metaType_` tag, its
attributes and its child objects. -/
inductive H5Tree where
  | dataset (a : NDArray1)
  | group (typ : String) (attrs : List (String × H5Attr)) (children : List (String × H5Tree))

/-- The attribute `writeHDF5Meta` stores for a scalar value: ints and
floats directly, strings/bools/`None` as their `repr` strings
(Table.py lines 1174-1183); `none` for values that become groups or
datasets. -/
def encAttrOf : PyVal → Option H5Attr
  | PyVal.num q => some (H5Attr.num q)
  | PyVal.str s => some (H5Attr.str (pyReprStr s))
  | PyVal.bool b => some (H5Attr.str (cond b "True" "False"))
  | PyVal.noneV => some (H5Attr.str "None")
  | _ => Option.none

/-! `writeHDF5Meta` (Table.py lines 1156-1189) on group-forming values:
each ndarray member becomes a child dataset, each list/tuple/dict member
a child group, each scalar an attribute; sequence members are named
`str(i)`. -/
mutual

def encTreeQ : PyVal → Option H5Tree
  | PyVal.arr a => some (H5Tree.dataset a)
  | PyVal.list xs => some (H5Tree.group "list" (encSeq 0 xs).1 (encSeq 0 xs).2)
  | PyVal.tup xs => some (H5Tree.group "tuple" (encSeq 0 xs).1 (encSeq 0 xs).2)
  | PyVal.dict kvs => some (H5Tree.group "dict" (encKvs kvs).1 (encKvs kvs).2)
  | _ => Option.none

def encSeq : Nat → List PyVal → (List (String × H5Attr) × List (String × H5Tree))
  | _, [] => ([], [])
  | i, v :: rest =>
      let r := encSeq (i + 1) rest
      match encAttrOf v with
      | some a => ((natRepr i, a) :: r.1, r.2)
      | Option.none =>
          match encTreeQ v with
          | some t => (r.1, (natRepr i, t) :: r.2)
          | Option.none => r

def encKvs : List (String × PyVal) → (List (String × H5Attr) × List (String × H5Tree))
  | [] => ([], [])
  | (k, v) :: rest =>
      let r := encKvs rest
      match encAttrOf v with
      | some a => ((k, a) :: r.1, r.2)
      | Option.none =>
          match encTreeQ v with
          | some t => (r.1, (k, t) :: r.2)
          | Option.none => r

end

def litToVal : PyLit → PyVal
  | PyLit.str s => PyVal.str s
  | PyLit.bool b => PyVal.bool b
  | PyLit.noneLit => PyVal.noneV

/-- One attribute as `readHDF5Meta` sees it: strings are re-`eval`ed to
their original types, numbers pass through (Table.py lines 979-988). -/
def evalAttr : H5Attr → Except Err PyVal
  | H5Attr.num q => Except.ok (PyVal.num q)
  | H5Attr.str s => do
      let l ← pyEvalStr s
      Except.ok (litToVal l)

def evalAttrs : List (String × H5Attr) → Except Err (List (String × PyVal))
  | [] => Except.ok []
  | (k, a) :: rest => do
      let v ← evalAttr a
      let r ← evalAttrs rest
      Except.ok ((k, v) :: r)

/-- The positional rebuild `d2[int(k)] = data[k]` of `readHDF5Meta`
(Table.py lines 1012-1014): a malformed name is a `ValueError`, an
out-of-range position an `IndexError`. -/
def placeAll : List (String × PyVal) → List (Option PyVal) → Except Err (List (Option PyVal))
  | [], acc => Except.ok acc
  | (k, v) :: rest, acc =>
      match natParse k with
      | some i =>
          if i < acc.length then placeAll rest (acc.set i (some v))
          else Except.error Err.indexError
      | Option.none => Except.error Err.typeError

/-- `d2 = [None] * len(data)` followed by the placement loop; unfilled
slots remain `None`. -/
def placed (data : List (String × PyVal)) : Except Err (List PyVal) := do
  let filled ← placeAll data (List.replicate data.length Option.none)
  Except.ok (filled.map (fun o => o.getD PyVal.noneV))

/-! `readHDF5Meta` (Table.py lines 974-1019): collect the re-`eval`ed
attributes, then the recursively read children, and assemble a dict,
list or tuple according to the `_metaType_` tag. -/
mutual

def readMeta : H5Tree → Except Err PyVal
  | H5Tree.dataset a => Except.ok (PyVal.arr a)
  | H5Tree.group typ attrs children => do
      let d1 ← evalAttrs attrs
      let d2 ← readKids children
      let data := d1 ++ d2
      if typ = "dict" then Except.ok (PyVal.dict data)
      else if typ = "list" then do
        let vs ← placed data
        Except.ok (PyVal.list vs)
      else if typ = "tuple" then do
        let vs ← placed data
        Except.ok (PyVal.tup vs)
      else Except.error Err.metadataDecode

def readKids : List (String × H5Tree) → Except Err (List (String × PyVal))
  | [] => Except.ok []
  | (k, t) :: rest => do
      let v ← readMeta t
      let r ← readKids rest
      Except.ok ((k, v) :: r)

end

/-! Bridge between the axis-description structures and the Python values
the metadata serializer sees. The structures model Python dicts
key-by-key (see the module header); the bridge spells the correspondence
out, using the key order in which the source builds the dictionaries. -/

def nameToPy : AxName → PyVal
  | AxName.str s => PyVal.str s
  | AxName.tup ts => PyVal.tup (ts.map PyVal.str)

def vlenToPy : VLen → PyVal
  | VLen.dyn => PyVal.str "dynamic"
  | VLen.len n => PyVal.num n

def valuesToPy : ValSeq → PyVal
  | ValSeq.arr a => PyVal.arr a
  | ValSeq.pylist l => PyVal.list (l.map PyVal.num)

/-- The dict entry contributed by one optional key. -/
def optField {α : Type} (k : String) (f : α → PyVal) : Option α → List (String × PyVal)
  | Option.none => []
  | some v => [(k, f v)]

def colKvs (c : Col) : List (String × PyVal) :=
  optField "name" nameToPy c.name ++ optField "units" PyVal.str c.units ++
    optField "title" PyVal.str c.title

def colToPy (c : Col) : PyVal := PyVal.dict (colKvs c)

def axisKvs (ax : AxisSpec) : List (String × PyVal) :=
  optField "name" nameToPy ax.name ++ optField "units" PyVal.str ax.units ++
    optField "values" valuesToPy ax.values ++
    optField "cols" (fun cs => PyVal.list (cs.map colToPy)) ax.cols ++
    optField "values_len" vlenToPy ax.valuesLen ++
    optField "values_type" PyVal.str ax.valuesType

def axisToPy (ax : AxisSpec) : PyVal := PyVal.dict (axisKvs ax)

def infoToPy (info : List AxisSpec) : PyVal := PyVal.list (info.map axisToPy)

/-! The reverse bridge: reading a Python value back into the
structures. Each reader accepts exactly the value shapes the axis
dictionaries can contain and rejects everything else. -/

def asStr : PyVal → Except Err String
  | PyVal.str s => Except.ok s
  | _ => Except.error Err.metadataDecode

def strListOf : List PyVal → Except Err (List String)
  | [] => Except.ok []
  | v :: rest => do
      let s ← asStr v
      let r ← strListOf rest
      Except.ok (s :: r)

def asName : PyVal → Except Err AxName
  | PyVal.str s => Except.ok (AxName.str s)
  | PyVal.tup xs => do
      let ss ← strListOf xs
      Except.ok (AxName.tup ss)
  | _ => Except.error Err.metadataDecode

def qListOf : List PyVal → Except Err (List ℚ)
  | [] => Except.ok []
  | PyVal.num q :: rest => do
      let r ← qListOf rest
      Except.ok (q :: r)
  | _ => Except.error Err.metadataDecode

def asValues : PyVal → Except Err ValSeq
  | PyVal.arr a => Except.ok (ValSeq.arr a)
  | PyVal.list xs => do
      let qs ← qListOf xs
      Except.ok (ValSeq.pylist qs)
  | _ => Except.error Err.metadataDecode

def asVLen : PyVal → Except Err VLen
  | PyVal.num q =>
      if q.den = 1 ∧ 0 ≤ q.num then Except.ok (VLen.len q.num.toNat)
      else Except.error Err.metadataDecode
  | PyVal.str s =>
      if s = "dynamic" then Except.ok VLen.dyn else Except.error Err.metadataDecode
  | _ => Except.error Err.metadataDecode

def colSetKey (c : Col) : String × PyVal → Except Err Col
  | ("name", v) => do
      let n ← asName v
      Except.ok { c with name := some n }
  | ("units", v) => do
      let u ← asStr v
      Except.ok { c with units := some u }
  | ("title", v) => do
      let t ← asStr v
      Except.ok { c with title := some t }
  | _ => Except.error Err.metadataDecode

def colOfKvs : Col → List (String × PyVal) → Except Err Col
  | c, [] => Except.ok c
  | c, kv :: rest => do
      let c2 ← colSetKey c kv
      colOfKvs c2 rest

def asCol : PyVal → Except Err Col
  | PyVal.dict kvs => colOfKvs {} kvs
  | _ => Except.error Err.metadataDecode

def colListOf : List PyVal → Except Err (List Col)
  | [] => Except.ok []
  | v :: rest => do
      let c ← asCol v
      let r ← colListOf rest
      Except.ok (c :: r)

def axisSetKey (ax : AxisSpec) : String × PyVal → Except Err AxisSpec
  | ("name", v) => do
      let n ← asName v
      Except.ok { ax with name := some n }
  | ("units", v) => do
      let u ← asStr v
      Except.ok { ax with units := some u }
  | ("values", v) => do
      let vs ← asValues v
      Except.ok { ax with values := some vs }
  | ("cols", v) =>
      match v with
      | PyVal.list xs => do
          let cs ← colListOf xs
          Except.ok { ax with cols := some cs }
      | _ => Except.error Err.metadataDecode
  | ("values_len", v) => do
      let l ← asVLen v
      Except.ok { ax with valuesLen := some l }
  | ("values_type", v) => do
      let t ← asStr v
      Except.ok { ax with valuesType := some t }
  | _ => Except.error Err.metadataDecode

def axisOfKvs : AxisSpec → List (String × PyVal) → Except Err AxisSpec
  | ax, [] => Except.ok ax
  | ax, kv :: rest => do
      let ax2 ← axisSetKey ax kv
      axisOfKvs ax2 rest

def asAxis : PyVal → Except Err AxisSpec
  | PyVal.dict kvs => axisOfKvs {} kvs
  | _ => Except.error Err.metadataDecode

def axisListOf : List PyVal → Except Err (List AxisSpec)
  | [] => Except.ok []
  | v :: rest => do
      let ax ← asAxis v
      let r ← axisListOf rest
      Except.ok (ax :: r)

def asInfo : PyVal → Except Err (List AxisSpec)
  | PyVal.list xs => axisListOf xs
  | _ => Except.error Err.metadataDecode

/-! File-level model of the HDF5 container: the bulk `data` dataset with
its resize limits, the `MetaArray` version attribute, and the `info`
group tree. -/

structure H5DSet where
  shape : List Nat
  dtype : String
  maxshape : List (Option Nat)
  data : List ℚ

structure H5File where
  version : String
  dset : H5DSet
  infoT : H5Tree

/-- The `info` group `writeHDF5Meta(f, "info", self._info)` produces:
`self._info` is a list, so the root is a `"list"` group of the encoded
axis dictionaries. -/
def infoTree (info : List AxisSpec) : H5Tree :=
  H5Tree.group "list" (encSeq 0 (info.map axisToPy)).1 (encSeq 0 (info.map axisToPy)).2

/-- The fresh-file branch of `writeHDF5` (Table.py lines 1140-1154):
version attribute, bulk dataset (extendable along the append axis when
one is given: `maxShape[ax] = None`), and the metadata tree. -/
def writeH5fresh (x : Instance) (appendAxis : Option Nat) : H5File :=
  let mx := match appendAxis with
    | some ax => (x.data.shape.map some).set ax Option.none
    | Option.none => x.data.shape.map some
  ⟨metaVersion, ⟨x.data.shape, x.data.dtype, mx, x.data.data⟩, infoTree x.info⟩

/-- The append branch of `writeHDF5` (Table.py lines 1105-1139): check
the version attribute, resize the bulk dataset along the append axis
(legal only where `maxshape` is unlimited; the slice assignment needs
every other extent to agree) and write the new data into the trailing
region — on the row-major model this is concatenation along the axis —
then extend the `values` dataset of the append axis, raising the
append-key `TypeError` when the target axis group has no `values`
child. -/
def appendH5 (x : Instance) (ax : Nat) (f : H5File) : Except Err H5File :=
  if f.version ≠ metaVersion then Except.error Err.versionConflict
  else if (f.dset.maxshape.getD ax (some 0)).isSome then Except.error Err.typeError
  else if f.dset.shape.set ax (x.data.shape.getD ax 0) ≠ x.data.shape then
    Except.error Err.shapeMismatch
  else
    let newData := concatAlong ax ⟨f.dset.shape, f.dset.dtype, f.dset.data⟩ x.data
    match f.infoT with
    | H5Tree.dataset _ => Except.error Err.typeError
    | H5Tree.group rt ras rcs =>
        match rcs.lookup (natRepr ax) with
        | Option.none => Except.error Err.keyError
        | some (H5Tree.dataset _) => Except.error Err.typeError
        | some (H5Tree.group gt gas gcs) =>
            match gcs.lookup "values" with
            | Option.none => Except.error Err.unknownAppendKey
            | some (H5Tree.group _ _ _) => Except.error Err.typeError
            | some (H5Tree.dataset v) =>
                match (x.info.getD ax {}).values with
                | some (ValSeq.arr v2) =>
                    let vNew : NDArray1 := ⟨v.dtype, v.vals ++ v2.vals⟩
                    let gcs2 := gcs.map (fun p =>
                      if p.1 = "values" then ("values", H5Tree.dataset vNew) else p)
                    let rcs2 := rcs.map (fun p =>
                      if p.1 = natRepr ax then (natRepr ax, H5Tree.group gt gas gcs2) else p)
                    Except.ok ⟨f.version,
                      ⟨newData.shape, f.dset.dtype, f.dset.maxshape, newData.data⟩,
                      H5Tree.group rt ras rcs2⟩
                | some (ValSeq.pylist _) => Except.error Err.typeError
                | Option.none => Except.error Err.keyError

/-- `writeHDF5` with default options: append exactly when an append axis
is supplied and the target file exists (Table.py lines 1093-1105). -/
def writeH5 (x : Instance) (appendAxis : Option Nat) (existing : Option H5File) :
    Except Err H5File :=
  match appendAxis, existing with
  | some ax, some f => appendH5 x ax f
  | _, _ => Except.ok (writeH5fresh x appendAxis)

/-- Reading an HDF5 file back (`_readHDF5` + the constructor): decode
the `info` tree, take the bulk dataset as the buffer, and run the
constructor's `checkInfo` (Table.py lines 148-164 and 890-938; a newer
version attribute only prints a warning). -/
def loadH5 (f : H5File) : Except Err Instance := do
  let meta ← readMeta f.infoT
  let info ← asInfo meta
  mkMetaArray ⟨f.dset.shape, f.dset.dtype, f.dset.data⟩ (some info)

/-! Round-trip lemmas for the metadata tree: the serializer names
sequence members positionally, and the positional rebuild restores the
original order. -/

/-- The `(str(i), vᵢ)` association a sequence's members produce. -/
def enumFrom {α : Type} (i : Nat) : List α → List (String × α)
  | [] => []
  | v :: rest => (natRepr i, v) :: enumFrom (i + 1) rest

theorem enumFrom_length {α : Type} (vs : List α) : ∀ i, (enumFrom i vs).length = vs.length := by
  induction vs with
  | nil => intro i; rfl
  | cons v rest ih => intro i; rw [enumFrom, List.length_cons, List.length_cons, ih]

theorem placeAll_enum (vs : List PyVal) : ∀ (pre : List (Option PyVal)),
    placeAll (enumFrom pre.length vs) (pre ++ List.replicate vs.length Option.none)
      = Except.ok (pre ++ vs.map some) := by
  induction vs with
  | nil => intro pre; simp [enumFrom, placeAll]
  | cons v rest ih =>
      intro pre
      rw [enumFrom, placeAll, natParse_natRepr]
      show (if pre.length < (pre ++ List.replicate (v :: rest).length (Option.none : Option PyVal)).length
          then placeAll (enumFrom (pre.length + 1) rest)
            ((pre ++ List.replicate (v :: rest).length Option.none).set pre.length (some v))
          else Except.error Err.indexError)
        = Except.ok (pre ++ List.map some (v :: rest))
      rw [if_pos (by simp only [List.length_append, List.length_replicate, List.length_cons]; omega)]
      rw [List.set_append_right _ _ (le_refl _), Nat.sub_self]
      have hset : (List.replicate ((v :: rest).length) (Option.none : Option PyVal)).set 0 (some v)
          = some v :: List.replicate rest.length Option.none := by
        rw [List.length_cons, List.replicate_succ]; rfl
      rw [hset]
      have hre : pre ++ some v :: List.replicate rest.length Option.none
          = (pre ++ [some v]) ++ List.replicate rest.length Option.none := by
        simp
      rw [hre]
      have hlen : pre.length + 1 = (pre ++ [some v]).length := by
        simp
      rw [hlen, ih (pre ++ [some v])]
      simp

theorem placed_enum (vs : List PyVal) : placed (enumFrom 0 vs) = Except.ok vs := by
  rw [placed, enumFrom_length]
  have h := placeAll_enum vs []
  rw [List.length_nil] at h
  rw [List.nil_append] at h
  rw [h]
  simp [exc_ok_bind, Function.comp_def, Option.getD_some]

/-- How one serialized entry decodes: an attribute entry re-`eval`s to
the stated value, a child entry re-reads to it. -/
def entryDec (v v2 : PyVal) : Prop :=
  match encAttrOf v with
  | some a => evalAttr a = Except.ok v2
  | Option.none => ∃ t, encTreeQ v = some t ∧ readMeta t = Except.ok v2

theorem encSeq_attrs (ps : List (PyVal × PyVal)) :
    (∀ p ∈ ps, (encAttrOf p.1).isSome = true ∧ entryDec p.1 p.2) → ∀ i,
    ∃ as, encSeq i (ps.map Prod.fst) = (as, []) ∧
      evalAttrs as = Except.ok (enumFrom i (ps.map Prod.snd)) := by
  induction ps with
  | nil => intro _ i; exact ⟨[], rfl, rfl⟩
  | cons p rest ih =>
      intro h i
      obtain ⟨hs, hd⟩ := h p (by simp)
      obtain ⟨a, ha⟩ := Option.isSome_iff_exists.mp hs
      obtain ⟨as, h1, h2⟩ := ih (fun q hq => h q (by simp [hq])) (i + 1)
      have hd2 : evalAttr a = Except.ok p.2 := by
        rw [entryDec, ha] at hd
        exact hd
      refine ⟨(natRepr i, a) :: as, ?_, ?_⟩
      · simp only [List.map_cons, encSeq, ha, h1]
      · simp only [evalAttrs, hd2, exc_ok_bind, h2, List.map_cons, enumFrom]

theorem encSeq_kids (ps : List (PyVal × PyVal)) :
    (∀ p ∈ ps, encAttrOf p.1 = Option.none ∧ entryDec p.1 p.2) → ∀ i,
    ∃ cs, encSeq i (ps.map Prod.fst) = ([], cs) ∧
      readKids cs = Except.ok (enumFrom i (ps.map Prod.snd)) := by
  induction ps with
  | nil => intro _ i; exact ⟨[], rfl, rfl⟩
  | cons p rest ih =>
      intro h i
      obtain ⟨hs, hd⟩ := h p (by simp)
      rw [entryDec, hs] at hd
      obtain ⟨t, ht, hr⟩ := hd
      obtain ⟨cs, h1, h2⟩ := ih (fun q hq => h q (by simp [hq])) (i + 1)
      refine ⟨(natRepr i, t) :: cs, ?_, ?_⟩
      · simp only [List.map_cons, encSeq, hs, ht, h1]
      · simp only [readKids, hr, exc_ok_bind, h2, List.map_cons, enumFrom]

/-- Reading back a serialized sequence whose members are all scalars
(attribute entries) restores the member order. -/
theorem readMeta_seqA (typ : String) (hne : typ = "list" ∨ typ = "tuple")
    (ps : List (PyVal × PyVal))
    (h : ∀ p ∈ ps, (encAttrOf p.1).isSome = true ∧ entryDec p.1 p.2) :
    readMeta (H5Tree.group typ (encSeq 0 (ps.map Prod.fst)).1 (encSeq 0 (ps.map Prod.fst)).2)
      = Except.ok (if typ = "list" then PyVal.list (ps.map Prod.snd)
          else PyVal.tup (ps.map Prod.snd)) := by
  obtain ⟨as, h1, h2⟩ := encSeq_attrs ps h 0
  rw [readMeta, h1]
  simp only [h2, readKids, exc_ok_bind, List.append_nil]
  rcases hne with hl | ht
  · subst hl
    simp [placed_enum, exc_ok_bind]
  · subst ht
    simp [placed_enum, exc_ok_bind]

/-- Reading back a serialized sequence whose members are all
group-forming (child entries) restores the member order. -/
theorem readMeta_seqC (ps : List (PyVal × PyVal))
    (h : ∀ p ∈ ps, encAttrOf p.1 = Option.none ∧ entryDec p.1 p.2) :
    readMeta (H5Tree.group "list" (encSeq 0 (ps.map Prod.fst)).1 (encSeq 0 (ps.map Prod.fst)).2)
      = Except.ok (PyVal.list (ps.map Prod.snd)) := by
  obtain ⟨cs, h1, h2⟩ := encSeq_kids ps h 0
  rw [readMeta, h1]
  simp only [evalAttrs, exc_ok_bind, h2, List.nil_append]
  simp [placed_enum, exc_ok_bind]

theorem encKvs_split (kvps : List (String × PyVal × PyVal))
    (h : ∀ p ∈ kvps, entryDec p.2.1 p.2.2) :
    evalAttrs (encKvs (kvps.map (fun p => (p.1, p.2.1)))).1
        = Except.ok ((kvps.filter (fun p => (encAttrOf p.2.1).isSome)).map
            (fun p => (p.1, p.2.2)))
    ∧ readKids (encKvs (kvps.map (fun p => (p.1, p.2.1)))).2
        = Except.ok ((kvps.filter (fun p => (encAttrOf p.2.1).isNone)).map
            (fun p => (p.1, p.2.2))) := by
  induction kvps with
  | nil => exact ⟨rfl, rfl⟩
  | cons p rest ih =>
      obtain ⟨h1, h2⟩ := ih (fun q hq => h q (by simp [hq]))
      have hd := h p (by simp)
      rw [entryDec] at hd
      cases hc : encAttrOf p.2.1 with
      | some a =>
          rw [hc] at hd
          constructor
          · simp only [List.map_cons, encKvs, hc, evalAttrs, hd, exc_ok_bind, h1,
              List.filter_cons, Option.isSome_some, reduceIte]
          · simp only [List.map_cons, encKvs, hc, h2, List.filter_cons, Option.isNone_some]
            simp
      | none =>
          rw [hc] at hd
          obtain ⟨t, ht, hr⟩ := hd
          constructor
          · simp only [List.map_cons, encKvs, hc, ht, h1, List.filter_cons, Option.isSome_none]
            simp
          · simp only [List.map_cons, encKvs, hc, ht, readKids, hr, exc_ok_bind, h2,
              List.filter_cons, Option.isNone_none, reduceIte]

/-- Reading back a serialized dict restores every entry, attribute
entries first. -/
theorem readMeta_dictG (kvps : List (String × PyVal × PyVal))
    (h : ∀ p ∈ kvps, entryDec p.2.1 p.2.2) :
    readMeta (H5Tree.group "dict" (encKvs (kvps.map (fun p => (p.1, p.2.1)))).1
        (encKvs (kvps.map (fun p => (p.1, p.2.1)))).2)
      = Except.ok (PyVal.dict
          ((kvps.filter (fun p => (encAttrOf p.2.1).isSome)).map (fun p => (p.1, p.2.2)) ++
           (kvps.filter (fun p => (encAttrOf p.2.1).isNone)).map (fun p => (p.1, p.2.2)))) := by
  obtain ⟨h1, h2⟩ := encKvs_split kvps h
  rw [readMeta]
  simp only [h1, h2, exc_ok_bind, reduceIte]

/-! Per-leaf round trips: every value an axis dictionary can contain
decodes back to itself (dictionary-valued members up to the
attributes-first entry order, which key-based access does not see). -/

theorem entryDec_num (q : ℚ) : entryDec (PyVal.num q) (PyVal.num q) := rfl

theorem entryDec_str (s : String) : entryDec (PyVal.str s) (PyVal.str s) := by
  rw [entryDec]
  show evalAttr (H5Attr.str (pyReprStr s)) = Except.ok (PyVal.str s)
  simp only [evalAttr, pyEvalStr_pyReprStr, exc_ok_bind, litToVal]

theorem entryDec_arr (a : NDArray1) : entryDec (PyVal.arr a) (PyVal.arr a) := by
  rw [entryDec]
  exact ⟨H5Tree.dataset a, by rw [encTreeQ], by rw [readMeta]⟩

theorem readMeta_numList (l : List ℚ) :
    readMeta (H5Tree.group "list" (encSeq 0 (l.map PyVal.num)).1 (encSeq 0 (l.map PyVal.num)).2)
      = Except.ok (PyVal.list (l.map PyVal.num)) := by
  have h := readMeta_seqA "list" (Or.inl rfl) (l.map fun q => (PyVal.num q, PyVal.num q))
    (fun p hp => by
      simp only [List.mem_map] at hp
      obtain ⟨q, _, rfl⟩ := hp
      exact ⟨rfl, entryDec_num q⟩)
  simp only [List.map_map] at h
  have hc : (Prod.fst ∘ fun q : ℚ => (PyVal.num q, PyVal.num q)) = PyVal.num := rfl
  have hs : (Prod.snd ∘ fun q : ℚ => (PyVal.num q, PyVal.num q)) = PyVal.num := rfl
  rw [hc, hs] at h
  simpa using h

theorem readMeta_strTup (ts : List String) :
    readMeta (H5Tree.group "tuple" (encSeq 0 (ts.map PyVal.str)).1
        (encSeq 0 (ts.map PyVal.str)).2)
      = Except.ok (PyVal.tup (ts.map PyVal.str)) := by
  have h := readMeta_seqA "tuple" (Or.inr rfl) (ts.map fun s => (PyVal.str s, PyVal.str s))
    (fun p hp => by
      simp only [List.mem_map] at hp
      obtain ⟨s, _, rfl⟩ := hp
      exact ⟨rfl, entryDec_str s⟩)
  simp only [List.map_map] at h
  have hc : (Prod.fst ∘ fun s : String => (PyVal.str s, PyVal.str s)) = PyVal.str := rfl
  have hs : (Prod.snd ∘ fun s : String => (PyVal.str s, PyVal.str s)) = PyVal.str := rfl
  rw [hc, hs] at h
  simpa using h

theorem entryDec_name (n : AxName) : entryDec (nameToPy n) (nameToPy n) := by
  cases n with
  | str s => exact entryDec_str s
  | tup ts =>
      rw [nameToPy, entryDec]
      exact ⟨_, by rw [encTreeQ], readMeta_strTup ts⟩

theorem entryDec_values (v : ValSeq) : entryDec (valuesToPy v) (valuesToPy v) := by
  cases v with
  | arr a => exact entryDec_arr a
  | pylist l =>
      rw [valuesToPy, entryDec]
      exact ⟨_, by rw [encTreeQ], readMeta_numList l⟩

theorem entryDec_vlen (l : VLen) : entryDec (vlenToPy l) (vlenToPy l) := by
  cases l with
  | dyn => exact entryDec_str "dynamic"
  | len n => exact entryDec_num n

/-! Column dictionaries round trip (attribute entries first; `asCol` is
key-based, so the entry order is immaterial). -/

/-- The entry list a column dictionary decodes to. -/
def colDecKvs (c : Col) : List (String × PyVal) :=
  (colKvs c).filter (fun kv => (encAttrOf kv.2).isSome) ++
    (colKvs c).filter (fun kv => (encAttrOf kv.2).isNone)

theorem optField_mem {α : Type} {kv : String × PyVal} {k : String} {f : α → PyVal}
    {o : Option α} (h : kv ∈ optField k f o) : ∃ v, o = some v ∧ kv = (k, f v) := by
  cases o with
  | none => simp [optField] at h
  | some v =>
      simp only [optField, List.mem_singleton] at h
      exact ⟨v, rfl, h⟩

theorem colKvs_entryDec (c : Col) : ∀ kv ∈ colKvs c, entryDec kv.2 kv.2 := by
  intro kv hkv
  rw [colKvs] at hkv
  rcases List.mem_append.mp hkv with h1 | h1
  · rcases List.mem_append.mp h1 with h2 | h2
    · obtain ⟨n, _, rfl⟩ := optField_mem h2
      exact entryDec_name n
    · obtain ⟨u, _, rfl⟩ := optField_mem h2
      exact entryDec_str u
  · obtain ⟨t, _, rfl⟩ := optField_mem h1
    exact entryDec_str t

theorem readMeta_colG (c : Col) :
    readMeta (H5Tree.group "dict" (encKvs (colKvs c)).1 (encKvs (colKvs c)).2)
      = Except.ok (PyVal.dict (colDecKvs c)) := by
  have h := readMeta_dictG ((colKvs c).map (fun kv => (kv.1, kv.2, kv.2)))
    (fun p hp => by
      simp only [List.mem_map] at hp
      obtain ⟨kv, hkv, rfl⟩ := hp
      exact colKvs_entryDec c kv hkv)
  have hid : ((fun p : String × PyVal × PyVal => (p.1, p.2.1)) ∘
      (fun kv : String × PyVal => (kv.1, kv.2, kv.2))) = id := rfl
  have hid2 : ((fun p : String × PyVal × PyVal => (p.1, p.2.2)) ∘
      (fun kv : String × PyVal => (kv.1, kv.2, kv.2))) = id := rfl
  rw [List.map_map, hid, List.map_id] at h
  rw [List.filter_map, List.filter_map, List.map_map, List.map_map, hid2, List.map_id,
    List.map_id] at h
  have hp1 : ((fun p : String × PyVal × PyVal => (encAttrOf p.2.1).isSome) ∘
      (fun kv : String × PyVal => (kv.1, kv.2, kv.2)))
      = fun kv : String × PyVal => (encAttrOf kv.2).isSome := rfl
  have hp2 : ((fun p : String × PyVal × PyVal => (encAttrOf p.2.1).isNone) ∘
      (fun kv : String × PyVal => (kv.1, kv.2, kv.2)))
      = fun kv : String × PyVal => (encAttrOf kv.2).isNone := rfl
  rw [hp1, hp2] at h
  exact h

theorem strListOf_map (ts : List String) : strListOf (ts.map PyVal.str) = Except.ok ts := by
  induction ts with
  | nil => rfl
  | cons s rest ih => simp only [List.map_cons, strListOf, asStr, exc_ok_bind, ih]

theorem qListOf_map (l : List ℚ) : qListOf (l.map PyVal.num) = Except.ok l := by
  induction l with
  | nil => rfl
  | cons q rest ih => simp only [List.map_cons, qListOf, exc_ok_bind, ih]

theorem asCol_colDec (c : Col) : asCol (PyVal.dict (colDecKvs c)) = Except.ok c := by
  rcases c with ⟨n, u, t⟩
  rcases n with _ | (s | ts) <;> rcases u with _ | u <;> rcases t with _ | t <;>
    simp [colDecKvs, colKvs, optField, encAttrOf, nameToPy, asCol, colOfKvs, colSetKey,
      asName, asStr, strListOf_map, exc_ok_bind]

/-- The decoded image of one column dictionary. -/
def colDec (c : Col) : PyVal := PyVal.dict (colDecKvs c)

theorem colListOf_dec (cs : List Col) : colListOf (cs.map colDec) = Except.ok cs := by
  induction cs with
  | nil => rfl
  | cons c rest ih =>
      simp only [List.map_cons, colListOf, colDec, asCol_colDec, exc_ok_bind, ih]

theorem entryDec_col (c : Col) : entryDec (colToPy c) (colDec c) := by
  rw [entryDec, colToPy]
  exact ⟨_, by rw [encTreeQ], readMeta_colG c⟩

theorem entryDec_colList (cs : List Col) :
    entryDec (PyVal.list (cs.map colToPy)) (PyVal.list (cs.map colDec)) := by
  rw [entryDec]
  refine ⟨_, by rw [encTreeQ], ?_⟩
  have h := readMeta_seqC (cs.map fun c => (colToPy c, colDec c))
    (fun p hp => by
      simp only [List.mem_map] at hp
      obtain ⟨c, _, rfl⟩ := hp
      exact ⟨rfl, entryDec_col c⟩)
  simp only [List.map_map] at h
  have hc : (Prod.fst ∘ fun c : Col => (colToPy c, colDec c)) = colToPy := rfl
  have hs : (Prod.snd ∘ fun c : Col => (colToPy c, colDec c)) = colDec := rfl
  rw [hc, hs] at h
  exact h

/-! Axis dictionaries round trip. -/

/-- Encoded/decoded value pair of one optional key. -/
def optFieldP {α : Type} (k : String) (f : α → PyVal × PyVal) :
    Option α → List (String × PyVal × PyVal)
  | Option.none => []
  | some v => [(k, f v)]

/-- Each axis-dictionary entry paired with its decoded image (all
identities except `cols`, whose member dictionaries decode
attributes-first). -/
def axisKvps (ax : AxisSpec) : List (String × PyVal × PyVal) :=
  optFieldP "name" (fun n => (nameToPy n, nameToPy n)) ax.name ++
    optFieldP "units" (fun u => (PyVal.str u, PyVal.str u)) ax.units ++
    optFieldP "values" (fun v => (valuesToPy v, valuesToPy v)) ax.values ++
    optFieldP "cols" (fun cs => (PyVal.list (cs.map colToPy), PyVal.list (cs.map colDec)))
      ax.cols ++
    optFieldP "values_len" (fun l => (vlenToPy l, vlenToPy l)) ax.valuesLen ++
    optFieldP "values_type" (fun t => (PyVal.str t, PyVal.str t)) ax.valuesType

theorem optFieldP_fst {α : Type} (k : String) (g : α → PyVal × PyVal) (fE : α → PyVal)
    (hg : ∀ v, (g v).1 = fE v) (o : Option α) :
    (optFieldP k g o).map (fun p => (p.1, p.2.1)) = optField k fE o := by
  cases o with
  | none => rfl
  | some v => simp [optFieldP, optField, hg v]

theorem axisKvps_fst (ax : AxisSpec) :
    (axisKvps ax).map (fun p => (p.1, p.2.1)) = axisKvs ax := by
  rw [axisKvps, axisKvs]
  simp only [List.map_append]
  rw [optFieldP_fst _ _ _ (fun v => rfl), optFieldP_fst _ _ _ (fun v => rfl),
    optFieldP_fst _ _ _ (fun v => rfl), optFieldP_fst _ _ _ (fun v => rfl),
    optFieldP_fst _ _ _ (fun v => rfl), optFieldP_fst _ _ _ (fun v => rfl)]

theorem optFieldP_mem {kv : String × PyVal × PyVal} {α : Type} {k : String}
    {f : α → PyVal × PyVal} {o : Option α} (h : kv ∈ optFieldP k f o) :
    ∃ v, o = some v ∧ kv = (k, f v) := by
  cases o with
  | none => simp [optFieldP] at h
  | some v =>
      simp only [optFieldP, List.mem_singleton] at h
      exact ⟨v, rfl, h⟩

theorem axisKvps_entryDec (ax : AxisSpec) : ∀ p ∈ axisKvps ax, entryDec p.2.1 p.2.2 := by
  intro p hp
  rw [axisKvps] at hp
  rcases List.mem_append.mp hp with h | h
  rotate_left
  · obtain ⟨t, _, rfl⟩ := optFieldP_mem h
    exact entryDec_str t
  rcases List.mem_append.mp h with h | h
  rotate_left
  · obtain ⟨l, _, rfl⟩ := optFieldP_mem h
    exact entryDec_vlen l
  rcases List.mem_append.mp h with h | h
  rotate_left
  · obtain ⟨cs, _, rfl⟩ := optFieldP_mem h
    exact entryDec_colList cs
  rcases List.mem_append.mp h with h | h
  rotate_left
  · obtain ⟨v, _, rfl⟩ := optFieldP_mem h
    exact entryDec_values v
  rcases List.mem_append.mp h with h | h
  · obtain ⟨n, _, rfl⟩ := optFieldP_mem h
    exact entryDec_name n
  · obtain ⟨u, _, rfl⟩ := optFieldP_mem h
    exact entryDec_str u

/-- The entry list an axis dictionary decodes to. -/
def axisDecKvs (ax : AxisSpec) : List (String × PyVal) :=
  ((axisKvps ax).filter (fun p => (encAttrOf p.2.1).isSome)).map (fun p => (p.1, p.2.2)) ++
    ((axisKvps ax).filter (fun p => (encAttrOf p.2.1).isNone)).map (fun p => (p.1, p.2.2))

theorem readMeta_axisG (ax : AxisSpec) :
    readMeta (H5Tree.group "dict" (encKvs (axisKvs ax)).1 (encKvs (axisKvs ax)).2)
      = Except.ok (PyVal.dict (axisDecKvs ax)) := by
  have h := readMeta_dictG (axisKvps ax) (axisKvps_entryDec ax)
  rw [axisKvps_fst] at h
  rw [axisDecKvs]
  exact h

theorem asAxis_axisDec (ax : AxisSpec) : asAxis (PyVal.dict (axisDecKvs ax)) = Except.ok ax := by
  rcases ax with ⟨n, u, v, c, vl, vt⟩
  rcases n with _ | (s | ts) <;> rcases u with _ | u <;> rcases v with _ | (l | a) <;>
    rcases c with _ | c <;> rcases vl with _ | (_ | nn) <;> rcases vt with _ | vt <;>
    simp [axisDecKvs, axisKvps, optFieldP, encAttrOf, nameToPy, valuesToPy, vlenToPy,
      asAxis, axisOfKvs, axisSetKey, asName, asStr, asValues, asVLen, strListOf_map,
      qListOf_map, colListOf_dec, exc_ok_bind]

/-! The whole `info` list round trips through the HDF5 metadata tree. -/

theorem axisListOf_dec (info : List AxisSpec) :
    axisListOf (info.map (fun ax => PyVal.dict (axisDecKvs ax))) = Except.ok info := by
  induction info with
  | nil => rfl
  | cons ax rest ih =>
      simp only [List.map_cons, axisListOf, asAxis_axisDec, exc_ok_bind, ih]

theorem entryDec_axisToPy (ax : AxisSpec) :
    entryDec (axisToPy ax) (PyVal.dict (axisDecKvs ax)) := by
  rw [entryDec, axisToPy]
  exact ⟨_, by rw [encTreeQ], readMeta_axisG ax⟩

theorem readMeta_infoTree (info : List AxisSpec) :
    readMeta (infoTree info)
      = Except.ok (PyVal.list (info.map (fun ax => PyVal.dict (axisDecKvs ax)))) := by
  rw [infoTree]
  have h := readMeta_seqC (info.map fun ax => (axisToPy ax, PyVal.dict (axisDecKvs ax)))
    (fun p hp => by
      simp only [List.mem_map] at hp
      obtain ⟨ax, _, rfl⟩ := hp
      exact ⟨by rw [axisToPy]; rfl, entryDec_axisToPy ax⟩)
  simp only [List.map_map] at h
  have hc : (Prod.fst ∘ fun ax : AxisSpec => (axisToPy ax, PyVal.dict (axisDecKvs ax)))
      = axisToPy := rfl
  have hs : (Prod.snd ∘ fun ax : AxisSpec => (axisToPy ax, PyVal.dict (axisDecKvs ax)))
      = fun ax => PyVal.dict (axisDecKvs ax) := rfl
  rw [hc, hs] at h
  exact h

/-- Reading a freshly written HDF5 file re-enters the constructor with
exactly the data and info that were written. -/
theorem loadH5_fresh (x : Instance) (app : Option Nat) :
    loadH5 (writeH5fresh x app) = mkMetaArray x.data (some x.info) := by
  simp only [loadH5, writeH5fresh, readMeta_infoTree, exc_ok_bind, asInfo, axisListOf_dec]

/-! The constructor is the identity on well-formed data: re-validating
an already-normalized info list changes nothing. -/

theorem validateInfo_wf_id (shape : List Nat) : ∀ (info : List AxisSpec) (i : Nat),
    infoWfB shape i info = true → validateInfo shape i info = Except.ok info := by
  intro info
  induction info with
  | nil => intro i _; rfl
  | cons ax rest ih =>
      intro i h
      rw [infoWfB, Bool.and_eq_true] at h
      rw [validateInfo, validateEntry_wf shape i ax h.1]
      simp only [exc_ok_bind, ih (i + 1) h.2]

theorem mkMetaArray_wf_id (x : Instance) (hwf : x.wfB = true) :
    mkMetaArray x.data (some x.info) = Except.ok x := by
  rw [Instance.wfB, Bool.and_eq_true, Bool.and_eq_true] at hwf
  obtain ⟨⟨_, hlen⟩, hinfo⟩ := hwf
  rw [decide_eq_true_eq] at hlen
  rw [mkMetaArray, checkInfoPure]
  rw [if_neg (by omega)]
  rw [hlen, Nat.sub_self, List.replicate_zero, List.append_nil]
  rw [validateInfo_wf_id x.data.shape x.info 0 hinfo]
  rfl

/-! Flat-format write and read under Python 3: both directions raise a
`TypeError` before any data is exchanged, so no flat round trip ever
occurs. -/

/-- `writeMa`'s serialization loop either succeeds or raises on a raw
list `values`; either way the subsequent header write fails. -/
theorem serAxes_cases (info : List AxisSpec) :
    (∃ ps, serAxes info = Except.ok ps) ∨ serAxes info = Except.error Err.typeError := by
  induction info with
  | nil => exact Or.inl ⟨[], rfl⟩
  | cons ax rest ih =>
      cases hval : ax.values with
      | none =>
          rcases ih with ⟨ps, hps⟩ | hps
          · exact Or.inl ⟨(ax, Option.none) :: ps,
              by simp only [serAxes, serAxis, hval, hps, exc_ok_bind]⟩
          · exact Or.inr (by simp only [serAxes, serAxis, hval, hps, exc_ok_bind,
              exc_error_bind])
      | some vs =>
          cases vs with
          | pylist l =>
              exact Or.inr (by simp only [serAxes, serAxis, hval, exc_error_bind])
          | arr a =>
              rcases ih with ⟨ps, hps⟩ | hps
              · exact Or.inl ⟨({ ax with
                    values := Option.none,
                    valuesLen := some (VLen.len a.byteLen),
                    valuesType := some a.dtype }, some a) :: ps,
                  by simp only [serAxes, serAxis, hval, hps, exc_ok_bind]⟩
              · exact Or.inr (by simp only [serAxes, serAxis, hval, hps, exc_ok_bind,
                  exc_error_bind])

/-- Writing a flat file always raises: the header write passes `str` to
the binary-mode handle. -/
theorem writeMa_fails (x : Instance) : writeMa x = Except.error Err.typeError := by
  rw [writeMa]
  rcases serAxes_cases x.info with ⟨ps, hps⟩ | hps
  · simp only [hps, exc_ok_bind]
  · simp only [hps, exc_error_bind]

/-- Instance for the C1 witness and counterexample: axis names of both
allowed types, units, values and a column list. -/
def c1x : Instance :=
  ⟨⟨[2], "float64", [1, 2]⟩,
    [{ name := some (AxName.str "time"), units := some "s",
       values := some (ValSeq.arr ⟨"float64", [5, 6]⟩),
       cols := some [⟨some (AxName.tup ["a", "b"]), some "V", some "left"⟩,
         ⟨some (AxName.str "c"), Option.none, Option.none⟩] },
     { name := some (AxName.str "Signal") }]⟩

/-- C1 counterexample. Even for a fully well-formed instance the flat
round trip does not return the instance: the write raises `TypeError`
at the header write (Table.py line 1231), and reading any flat file
raises `TypeError` in `_readMeta` (line 761), so `load(write(x)) == x`
fails for the flat binary format. -/
theorem c1_flat_counterexample :
    (writeMa c1x).bind loadFlat = Except.error Err.typeError ∧ c1x.wfB = true :=
  ⟨rfl, by decide⟩

/-- C1 (amended). The HDF5 format round trips exactly: for every
constructed (well-formed) instance, with any combination of axis names,
units, per-axis values and column lists, writing a fresh HDF5 file and
loading it back restores the instance — data buffer and full
metadata. The flat binary format never round trips: the module is
Python-3-only, `writeMa` raises `TypeError` writing its textual header
to the binary-mode handle, and `_readMeta` raises `TypeError`
concatenating the binary header lines to a `str` on every flat file. -/
theorem c1_round_trip (x : Instance) (hwf : x.wfB = true) :
    (writeH5 x Option.none Option.none).bind loadH5 = Except.ok x ∧
    writeMa x = Except.error Err.typeError ∧
    (∀ f : FlatFile, loadFlat f = Except.error Err.typeError) := by
  refine ⟨?_, writeMa_fails x, fun f => rfl⟩
  show loadH5 (writeH5fresh x Option.none) = Except.ok x
  rw [loadH5_fresh]
  exact mkMetaArray_wf_id x hwf

theorem c1_round_trip_witness :
    c1x.wfB = true ∧
      ((writeH5 c1x Option.none Option.none).bind loadH5 = Except.ok c1x ∧
       writeMa c1x = Except.error Err.typeError ∧
       (∀ f : FlatFile, loadFlat f = Except.error Err.typeError)) :=
  ⟨by decide, c1_round_trip c1x (by decide)⟩

/-! ## C2: append growth (`writeHDF5` append branch) -/

/-- A rank-2 instance of `r` rows by 4 columns whose first axis carries
values `q`. -/
def c2mk (r : Nat) (d q : List ℚ) : Instance :=
  ⟨⟨[r, 4], "float64", d⟩, [{ values := some (ValSeq.arr ⟨"float64", q⟩) }, {}, {}]⟩

/-- A rank-2 instance with no axis metadata at all. -/
def c2plain (r : Nat) (d : List ℚ) : Instance := ⟨⟨[r, 4], "float64", d⟩, [{}, {}, {}]⟩

/-- C2 counterexample. Writing a `(3,4)` instance without axis-0 values
to a fresh file with `appendAxis=0` succeeds, but then appending a
`(2,4)` instance raises: the append loop always demands a `values`
child on the target axis group (`axKeys = ["values"]`) and raises the
append-key `TypeError` when the axis has none. -/
theorem c2_append_counterexample :
    writeH5 (c2plain 2 [20, 21, 22, 23, 24, 25, 26, 27]) (some 0)
        (some (writeH5fresh (c2plain 3 [0, 1, 2, 3, 4, 5, 6, 7, 8, 9, 10, 11]) (some 0)))
      = Except.error Err.unknownAppendKey := rfl

theorem chunkList_self {α : Type} (n : Nat) (l : List α) (h : l.length = n) (hn : 0 < n) :
    chunkList n l = [l] := by
  rw [chunkList, h]
  have hdiv : (n + n - 1) / n = 1 := by
    apply Nat.div_eq_of_lt_le
    · omega
    · omega
  rw [hdiv]
  rw [show List.range 1 = [0] from rfl]
  simp only [List.map_cons, List.map_nil, Nat.zero_mul, List.drop_zero]
  rw [← h, List.take_length]

/-- The HDF5 file state after appending along axis 0. -/
def c2file (d q : List ℚ) : H5File :=
  ⟨metaVersion, ⟨[5, 4], "float64", [Option.none, some 4], d⟩,
    infoTree [{ values := some (ValSeq.arr ⟨"float64", q⟩) }, {}, {}]⟩

/-- C2 (amended). When the appended axis carries values, writing a
`(3,4)` instance fresh with `appendAxis=0` and then appending a `(2,4)`
instance yields a file that reloads with shape `(5,4)`, data the
concatenation (first 3 rows the original data, untouched; last 2 rows
the appended data) and axis values concatenated. -/
theorem c2_append_growth (d1 d2 q1 q2 : List ℚ)
    (h1 : d1.length = 12) (h2 : d2.length = 8)
    (hq1 : q1.length = 3) (hq2 : q2.length = 2) :
    writeH5 (c2mk 2 d2 q2) (some 0) (some (writeH5fresh (c2mk 3 d1 q1) (some 0)))
        = Except.ok (c2file (d1 ++ d2) (q1 ++ q2)) ∧
      loadH5 (c2file (d1 ++ d2) (q1 ++ q2)) = Except.ok (c2mk 5 (d1 ++ d2) (q1 ++ q2)) ∧
      (d1 ++ d2).take 12 = d1 ∧ (d1 ++ d2).drop 12 = d2 := by
  refine ⟨?_, ?_, ?_, ?_⟩
  · show appendH5 (c2mk 2 d2 q2) 0 (writeH5fresh (c2mk 3 d1 q1) (some 0))
      = Except.ok (c2file (d1 ++ d2) (q1 ++ q2))
    have hchunks : (concatAlong 0 ⟨[3, 4], "float64", d1⟩ (c2mk 2 d2 q2).data).data
        = d1 ++ d2 := by
      show (List.zipWith (fun p q => p ++ q)
          (chunkList (innerSize [3, 4] 0) d1) (chunkList (innerSize [2, 4] 0) d2)).flatten
        = d1 ++ d2
      rw [show innerSize [3, 4] 0 = 12 from rfl, show innerSize [2, 4] 0 = 8 from rfl]
      rw [chunkList_self 12 d1 h1 (by norm_num), chunkList_self 8 d2 h2 (by norm_num)]
      simp
    have hstep : appendH5 (c2mk 2 d2 q2) 0 (writeH5fresh (c2mk 3 d1 q1) (some 0))
        = Except.ok ⟨metaVersion, ⟨[5, 4], "float64", [Option.none, some 4],
            (concatAlong 0 ⟨[3, 4], "float64", d1⟩ (c2mk 2 d2 q2).data).data⟩,
          infoTree [{ values := some (ValSeq.arr ⟨"float64", q1 ++ q2⟩) }, {}, {}]⟩ := rfl
    rw [hstep, hchunks, c2file]
  · rw [loadH5, c2file]
    simp only [readMeta_infoTree, exc_ok_bind, asInfo, axisListOf_dec]
    have hwf : (c2mk 5 (d1 ++ d2) (q1 ++ q2)).wfB = true := by
      simp [c2mk, Instance.wfB, NDArray.wfB, infoWfB, AxisSpec.wfAt, AxisSpec.wfLast,
        axValuesWf, axColsWf, List.length_append, h1, h2, hq1, hq2]
    exact mkMetaArray_wf_id (c2mk 5 (d1 ++ d2) (q1 ++ q2)) hwf
  · rw [← h1, List.take_left]
  · rw [← h1, List.drop_left]

theorem c2_append_growth_witness :
    ([0, 1, 2, 3, 4, 5, 6, 7, 8, 9, 10, 11] : List ℚ).length = 12 ∧
    ([20, 21, 22, 23, 24, 25, 26, 27] : List ℚ).length = 8 ∧
    ([0, 1, 2] : List ℚ).length = 3 ∧
    ([10, 11] : List ℚ).length = 2 ∧
    (writeH5 (c2mk 2 [20, 21, 22, 23, 24, 25, 26, 27] [10, 11]) (some 0)
        (some (writeH5fresh (c2mk 3 [0, 1, 2, 3, 4, 5, 6, 7, 8, 9, 10, 11] [0, 1, 2]) (some 0)))
      = Except.ok (c2file ([0, 1, 2, 3, 4, 5, 6, 7, 8, 9, 10, 11] ++ [20, 21, 22, 23, 24, 25, 26, 27])
          ([0, 1, 2] ++ [10, 11])) ∧
    loadH5 (c2file ([0, 1, 2, 3, 4, 5, 6, 7, 8, 9, 10, 11] ++ [20, 21, 22, 23, 24, 25, 26, 27])
          ([0, 1, 2] ++ [10, 11]))
      = Except.ok (c2mk 5 ([0, 1, 2, 3, 4, 5, 6, 7, 8, 9, 10, 11] ++ [20, 21, 22, 23, 24, 25, 26, 27])
          ([0, 1, 2] ++ [10, 11])) ∧
    (([0, 1, 2, 3, 4, 5, 6, 7, 8, 9, 10, 11] : List ℚ) ++ [20, 21, 22, 23, 24, 25, 26, 27]).take 12
        = [0, 1, 2, 3, 4, 5, 6, 7, 8, 9, 10, 11] ∧
    (([0, 1, 2, 3, 4, 5, 6, 7, 8, 9, 10, 11] : List ℚ) ++ [20, 21, 22, 23, 24, 25, 26, 27]).drop 12
        = [20, 21, 22, 23, 24, 25, 26, 27]) :=
  ⟨by decide, by decide, by decide, by decide,
    c2_append_growth [0, 1, 2, 3, 4, 5, 6, 7, 8, 9, 10, 11] [20, 21, 22, 23, 24, 25, 26, 27]
      [0, 1, 2] [10, 11] (by decide) (by decide) (by decide) (by decide)⟩

end MetaArraySpec
